import Mathlib

/-!
Shallow embedding of the WhooPaid debt-payoff and credit-utilization engines.

Monetary amounts and percentages are embedded as rationals (`ℚ`); the
source's `Math.round(n * 100) / 100` cent rounding becomes
`roundCents`, using `Math.round x = ⌊x + 1/2⌋`.

The payoff simulator's mutable `Map` of balances is embedded as a total
function `String → ℚ` updated pointwise; the month loop becomes an
iterated step function with an explicit executed-month counter.  The
source reads the wall clock (`new Date()`) inside its label helpers; the
embedding makes that ambient clock an explicit `NowClock` argument
threaded to the label/date formatters only.
-/

namespace WhooPaid

/-- Cent rounding: `Math.round(n * 100) / 100` from the source, with
`Math.round x = ⌊x + 1/2⌋`. -/
def roundCents (n : ℚ) : ℚ := (⌊n * 100 + 1 / 2⌋ : ℤ) / 100

/-- One-decimal percent rounding: `Math.round(n * 10) / 10` from the source. -/
def roundPercent (n : ℚ) : ℚ := (⌊n * 10 + 1 / 2⌋ : ℤ) / 10

/-- A rational is an exact whole number of cents. -/
def Cents (q : ℚ) : Prop := ∃ n : ℤ, q = (n : ℚ) / 100

theorem Cents.zero : Cents 0 := ⟨0, by norm_num⟩

theorem Cents.add {p q : ℚ} (hp : Cents p) (hq : Cents q) : Cents (p + q) := by
  obtain ⟨a, rfl⟩ := hp; obtain ⟨b, rfl⟩ := hq
  exact ⟨a + b, by push_cast; ring⟩

theorem Cents.sub {p q : ℚ} (hp : Cents p) (hq : Cents q) : Cents (p - q) := by
  obtain ⟨a, rfl⟩ := hp; obtain ⟨b, rfl⟩ := hq
  exact ⟨a - b, by push_cast; ring⟩

theorem Cents.min {p q : ℚ} (hp : Cents p) (hq : Cents q) : Cents (min p q) := by
  rcases le_total p q with h | h
  · rwa [min_eq_left h]
  · rwa [min_eq_right h]

theorem roundCents_cents (q : ℚ) : Cents (roundCents q) := ⟨⌊q * 100 + 1 / 2⌋, rfl⟩

theorem roundCents_eq_self {q : ℚ} (h : Cents q) : roundCents q = q := by
  obtain ⟨n, rfl⟩ := h
  have h100 : ((n : ℚ) / 100) * 100 = (n : ℚ) := by ring
  rw [roundCents, h100]
  have : ⌊(n : ℚ) + 1 / 2⌋ = n := by
    rw [Int.floor_eq_iff]
    exact ⟨by linarith, by linarith⟩
  rw [this]

theorem roundCents_mono {p q : ℚ} (h : p ≤ q) : roundCents p ≤ roundCents q := by
  unfold roundCents
  have : ⌊p * 100 + 1 / 2⌋ ≤ ⌊q * 100 + 1 / 2⌋ := Int.floor_le_floor (by linarith)
  have h2 : ((⌊p * 100 + 1 / 2⌋ : ℤ) : ℚ) ≤ ((⌊q * 100 + 1 / 2⌋ : ℤ) : ℚ) := by
    exact_mod_cast this
  linarith

theorem roundCents_nonneg {q : ℚ} (h : 0 ≤ q) : 0 ≤ roundCents q := by
  have := roundCents_mono h
  rwa [roundCents_eq_self Cents.zero] at this

-- --- Input and strategy types (payoff engine) ---

inductive Strategy
  | avalanche
  | snowball
deriving DecidableEq, Repr

structure CardInput where
  id : String
  cardName : String
  currentBalance : ℚ
  apr : ℚ
  minimumPayment : ℚ
  userName : String
deriving DecidableEq, Repr

structure EngineInput where
  cards : List CardInput
  monthlyExtraBudget : ℚ
  strategy : Strategy
  oneTimeExtra : Option ℚ
deriving DecidableEq, Repr

-- --- Strategy ordering ---

/-- Avalanche comparator's total preorder: `cmp(a,b) ≤ 0` where
`cmp` is `b.apr - a.apr`, ties broken by `a.currentBalance - b.currentBalance`. -/
def avalLE (a b : CardInput) : Prop :=
  b.apr < a.apr ∨ (a.apr = b.apr ∧ a.currentBalance ≤ b.currentBalance)

/-- Snowball comparator's total preorder: lowest balance first,
ties broken by highest APR. -/
def snowLE (a b : CardInput) : Prop :=
  a.currentBalance < b.currentBalance ∨
    (a.currentBalance = b.currentBalance ∧ b.apr ≤ a.apr)

instance : DecidableRel avalLE := fun a b => by unfold avalLE; infer_instance

instance : DecidableRel snowLE := fun a b => by unfold snowLE; infer_instance

instance : IsTotal CardInput avalLE where
  total a b := by
    unfold avalLE
    rcases lt_trichotomy a.apr b.apr with h | h | h
    · exact Or.inr (Or.inl h)
    · rcases le_total a.currentBalance b.currentBalance with hb | hb
      · exact Or.inl (Or.inr ⟨h, hb⟩)
      · exact Or.inr (Or.inr ⟨h.symm, hb⟩)
    · exact Or.inl (Or.inl h)

instance : IsTrans CardInput avalLE where
  trans a b c hab hbc := by
    unfold avalLE at *
    rcases hab with h1 | ⟨h1, h1'⟩ <;> rcases hbc with h2 | ⟨h2, h2'⟩
    · exact Or.inl (h2.trans h1)
    · exact Or.inl (h2 ▸ h1)
    · exact Or.inl (h1 ▸ h2)
    · exact Or.inr ⟨h1.trans h2, h1'.trans h2'⟩

instance : IsTotal CardInput snowLE where
  total a b := by
    unfold snowLE
    rcases lt_trichotomy a.currentBalance b.currentBalance with h | h | h
    · exact Or.inl (Or.inl h)
    · rcases le_total a.apr b.apr with hb | hb
      · exact Or.inr (Or.inr ⟨h.symm, hb⟩)
      · exact Or.inl (Or.inr ⟨h, hb⟩)
    · exact Or.inr (Or.inl h)

instance : IsTrans CardInput snowLE where
  trans a b c hab hbc := by
    unfold snowLE at *
    rcases hab with h1 | ⟨h1, h1'⟩ <;> rcases hbc with h2 | ⟨h2, h2'⟩
    · exact Or.inl (h1.trans h2)
    · exact Or.inl (h2 ▸ h1)
    · exact Or.inl (h1 ▸ h2)
    · exact Or.inr ⟨h1.trans h2, h2'.trans h1'⟩

/-- `sortCardsByStrategy`: stable sort of a copy of the card list by the
strategy comparator (ECMAScript `Array.prototype.sort` is stable; a stable
sort with a total transitive preorder is embedded as insertion sort). -/
def sortCardsByStrategy (cards : List CardInput) (strategy : Strategy) :
    List CardInput :=
  match strategy with
  | .avalanche => cards.insertionSort avalLE
  | .snowball => cards.insertionSort snowLE

/-- `calculateMonthlyInterest`: `roundCents(balance * (apr / 100) / 12)`. -/
def calculateMonthlyInterest (balance apr : ℚ) : ℚ :=
  roundCents (balance * (apr / 100) / 12)

-- --- Clock and label formatting ---

/-- The ambient wall clock at call time (the source reads `new Date()`
inside `getMonthLabel`/`getMonthIso`; the embedding passes the clock
explicitly).  `month0` is the JavaScript 0-based month. -/
structure NowClock where
  year : ℤ
  month0 : ℕ
deriving DecidableEq, Repr

def monthShortNames : List String :=
  ["Jan", "Feb", "Mar", "Apr", "May", "Jun",
   "Jul", "Aug", "Sep", "Oct", "Nov", "Dec"]

/-- `getMonthLabel`: `en-US` short label of the first of the month
`monthsFromNow` months after the clock reading, e.g. `"Oct 2026"`. -/
def getMonthLabel (now : NowClock) (monthsFromNow : ℕ) : String :=
  let t := now.month0 + monthsFromNow
  (monthShortNames.getD (t % 12) "") ++ " " ++ toString (now.year + (t / 12 : ℕ))

/-- `getMonthIso`: `"YYYY-MM"` of the month `monthsFromNow` months after
the clock reading, month zero-padded to two digits. -/
def getMonthIso (now : NowClock) (monthsFromNow : ℕ) : String :=
  let t := now.month0 + monthsFromNow
  let y := now.year + (t / 12 : ℕ)
  let m := t % 12 + 1
  toString y ++ "-" ++ (if m < 10 then "0" ++ toString m else toString m)

-- --- Output types (payoff engine) ---

structure PaymentInstruction where
  cardId : String
  cardName : String
  userName : String
  minimumPayment : ℚ
  extraPayment : ℚ
  newBalanceAfterPayment : ℚ
  paysOffThisMonth : Bool
  projectedPayoffDate : Option String
deriving DecidableEq, Repr

structure CardBalanceEntry where
  cardId : String
  cardName : String
  balance : ℚ
deriving DecidableEq, Repr

structure TimelineMonth where
  month : ℕ
  label : String
  cardBalances : List CardBalanceEntry
  totalDebt : ℚ
  totalInterestThisMonth : ℚ
  totalInterestCumulative : ℚ
deriving DecidableEq, Repr

structure PayoffPlanResult where
  paymentInstructions : List PaymentInstruction
  timeline : List TimelineMonth
  totalInterestCost : ℚ
  monthsToDebtFree : ℕ
  debtFreeDate : String
  capped : Bool
  totalCurrentDebt : ℚ
  monthlyExtraBudget : ℚ
  strategy : Strategy
deriving DecidableEq, Repr

-- --- Simulation state ---

/-- `MAX_MONTHS = 360`. -/
def MAX_MONTHS : ℕ := 360

/-- The loop parameters fixed for one `calculatePayoffPlan` invocation:
the positive-balance cards, the zero-balance cards, and the policy. -/
structure Params where
  active : List CardInput
  zero : List CardInput
  budget : ℚ
  strategy : Strategy
  oneTime : Option ℚ

/-- The simulator's mutable state: the balance `Map` (total function,
ids absent from the map read as their `?? 0` default), the freed-minimum
pool, cumulative interest, the paid-off set (insertion order), payoff
months, and the month-1 captures used for payment instructions. -/
structure SimState where
  bal : String → ℚ
  freed : ℚ
  cumInt : ℚ
  paid : List String
  payoffMonth : String → Option ℕ
  m1Extra : String → ℚ
  m1Bal : String → ℚ

def initState (p : Params) : SimState where
  bal := fun i => (((p.active.find? (fun c => c.id = i)).map
    (fun c => c.currentBalance)).getD 0)
  freed := 0
  cumInt := 0
  paid := []
  payoffMonth := fun _ => none
  m1Extra := fun _ => 0
  m1Bal := fun _ => 0

/-- Step 1 of the month loop: accrue interest on every positive-balance
card, accumulating the month's raw interest total. -/
def accrue (active : List CardInput) (b : String → ℚ) : (String → ℚ) × ℚ :=
  active.foldl
    (fun acc c =>
      let v := acc.1 c.id
      if v ≤ 0 then acc
      else
        let i := calculateMonthlyInterest v c.apr
        (Function.update acc.1 c.id (roundCents (v + i)), acc.2 + i))
    (b, 0)

/-- Step 2: subtract `min(minimumPayment, balance)` from every
positive-balance card. -/
def applyMinimums (active : List CardInput) (b : String → ℚ) : String → ℚ :=
  active.foldl
    (fun b c =>
      let v := b c.id
      if v ≤ 0 then b
      else Function.update b c.id (roundCents (v - min c.minimumPayment v)))
    b

/-- JavaScript truthiness of the optional one-time extra:
`month === 1 && oneTimeExtra` skips both `undefined` and `0`. -/
def oneTimeVal (o : Option ℚ) : ℚ :=
  match o with
  | none => 0
  | some x => if x = 0 then 0 else x

/-- Step 3: the extra budget available this month, computed from the
freed pool as it stood at the end of the previous month. -/
def monthAvail (p : Params) (month : ℕ) (freed : ℚ) : ℚ :=
  roundCents (p.budget + freed + (if month = 1 then oneTimeVal p.oneTime else 0))

/-- Step 4: allocate the extra budget over the strategy-sorted cards,
paying `min(availableExtra, balance)` to each until the extra runs out
(the source's `break` is the `avail ≤ 0` guard: once it holds it holds
for every later card).  Month-1 allocations are captured. -/
def allocate (sorted : List CardInput) (month : ℕ) (b : String → ℚ)
    (avail : ℚ) (m1e : String → ℚ) : (String → ℚ) × ℚ × (String → ℚ) :=
  sorted.foldl
    (fun st c =>
      if st.2.1 ≤ 0 then st
      else
        let v := st.1 c.id
        if v ≤ 0 then st
        else
          let alloc := roundCents (min st.2.1 v)
          (Function.update st.1 c.id (roundCents (v - alloc)),
           roundCents (st.2.1 - alloc),
           if month = 1 then Function.update st.2.2 c.id alloc else st.2.2))
    (b, avail, m1e)

/-- Step 5 (cascade): clamp every newly non-positive balance to exactly 0,
record the card in the paid-off set and its payoff month, and add its
minimum payment to the freed pool. -/
def cascade (active : List CardInput) (month : ℕ) (b : String → ℚ) (f : ℚ)
    (paid : List String) (pd : String → Option ℕ) :
    (String → ℚ) × ℚ × List String × (String → Option ℕ) :=
  active.foldl
    (fun st c =>
      if st.1 c.id ≤ 0 ∧ c.id ∉ st.2.2.1 then
        (Function.update st.1 c.id 0,
         roundCents (st.2.1 + c.minimumPayment),
         st.2.2.1 ++ [c.id],
         Function.update st.2.2.2 c.id (some month))
      else st)
    (b, f, paid, pd)

/-- One month of the simulation loop (steps 1-6), returning the new state
and the month's rounded interest total. -/
def stepState (p : Params) (month : ℕ) (s : SimState) : SimState × ℚ :=
  let a := accrue p.active s.bal
  let monthInterest := roundCents a.2
  let cum := roundCents (s.cumInt + monthInterest)
  let bal2 := applyMinimums p.active a.1
  let avail := monthAvail p month s.freed
  let cwb := p.active.filter (fun c => 0 < bal2 c.id ∧ c.id ∉ s.paid)
  let sorted := sortCardsByStrategy
    (cwb.map (fun c => { c with currentBalance := bal2 c.id })) p.strategy
  let al := allocate sorted month bal2 avail s.m1Extra
  let ca := cascade p.active month al.1 s.freed s.paid s.payoffMonth
  let m1b := if month = 1 then
      (fun i => if p.active.any (fun c => c.id = i) then ca.1 i else s.m1Bal i)
    else s.m1Bal
  ({ bal := ca.1, freed := ca.2.1, cumInt := cum, paid := ca.2.2.1,
     payoffMonth := ca.2.2.2, m1Extra := al.2.2, m1Bal := m1b },
   monthInterest)

/-- Step 7: the timeline entry recorded at the end of a month, built from
the post-month state. -/
def mkEntry (p : Params) (now : NowClock) (month : ℕ) (s' : SimState)
    (monthInterest : ℚ) : TimelineMonth where
  month := month
  label := getMonthLabel now month
  cardBalances := (p.active ++ p.zero).map
    (fun c => ⟨c.id, c.cardName, s'.bal c.id⟩)
  totalDebt := roundCents (p.active.foldl (fun a c => a + s'.bal c.id) 0)
  totalInterestThisMonth := monthInterest
  totalInterestCumulative := s'.cumInt

/-- Step 8's early exit: the loop breaks once every active card is in the
paid-off set. -/
def stoppedAt (p : Params) (s : SimState) : Prop :=
  s.paid.length = p.active.length

instance (p : Params) (s : SimState) : Decidable (stoppedAt p s) := by
  unfold stoppedAt; infer_instance

/-- The state after `n` loop iterations together with the number of
months actually executed (the loop body does not run again once the
break condition has been reached). -/
def runAux (p : Params) : ℕ → SimState × ℕ
  | 0 => (initState p, 0)
  | n + 1 =>
    let r := runAux p n
    if stoppedAt p r.1 then r
    else ((stepState p (n + 1) r.1).1, r.2 + 1)

def runState (p : Params) (n : ℕ) : SimState := (runAux p n).1

def monthsExecuted (p : Params) : ℕ := (runAux p MAX_MONTHS).2

/-- The recorded timeline: one entry per executed month. -/
def timelineOf (p : Params) (now : NowClock) : List TimelineMonth :=
  (List.range (monthsExecuted p)).map
    (fun k =>
      let st := stepState p (k + 1) (runState p k)
      mkEntry p now (k + 1) st.1 st.2)

/-- The loop parameters `calculatePayoffPlan` builds from its input: the
positive-balance cards are simulated, the rest are echoed. -/
def paramsOf (input : EngineInput) : Params where
  active := input.cards.filter (fun c => 0 < c.currentBalance)
  zero := input.cards.filter (fun c => c.currentBalance ≤ 0)
  budget := input.monthlyExtraBudget
  strategy := input.strategy
  oneTime := input.oneTimeExtra

/-- The month-1 payment instruction built for one card from the final
simulation state. -/
def instrOf (now : NowClock) (fin : SimState) (c : CardInput) :
    PaymentInstruction :=
  let payoffM := fin.payoffMonth c.id
  { cardId := c.id
    cardName := c.cardName
    userName := c.userName
    minimumPayment := c.minimumPayment
    extraPayment := fin.m1Extra c.id
    newBalanceAfterPayment := fin.m1Bal c.id
    paysOffThisMonth := decide (payoffM = some 1)
    projectedPayoffDate := payoffM.map (getMonthIso now) }

/-- `calculatePayoffPlan`, the core engine. -/
def calculatePayoffPlan (now : NowClock) (input : EngineInput) :
    PayoffPlanResult :=
  let totalCurrentDebt :=
    roundCents (input.cards.foldl (fun a c => a + c.currentBalance) 0)
  let active := (paramsOf input).active
  let zero := (paramsOf input).zero
  if active.isEmpty then
    { paymentInstructions := zero.map
        (fun c => ⟨c.id, c.cardName, c.userName, c.minimumPayment,
                   0, 0, false, none⟩)
      timeline := []
      totalInterestCost := 0
      monthsToDebtFree := 0
      debtFreeDate := getMonthIso now 0
      capped := false
      totalCurrentDebt := totalCurrentDebt
      monthlyExtraBudget := input.monthlyExtraBudget
      strategy := input.strategy }
  else
    let p := paramsOf input
    let fin := runState p MAX_MONTHS
    let tl := timelineOf p now
    let capped := fin.paid.length < p.active.length
    let lastMonth := tl.length
    { paymentInstructions := input.cards.map (instrOf now fin)
      timeline := tl
      totalInterestCost := fin.cumInt
      monthsToDebtFree := if capped then MAX_MONTHS else lastMonth
      debtFreeDate := getMonthIso now (if capped then MAX_MONTHS else lastMonth)
      capped := capped
      totalCurrentDebt := totalCurrentDebt
      monthlyExtraBudget := input.monthlyExtraBudget
      strategy := input.strategy }

-- --- Scenario comparison ---

structure SimulationInput where
  cards : List CardInput
  monthlyExtraBudget : ℚ
  strategy : Strategy
  oneTimePayment : Option ℚ
  budgetChange : Option ℚ
  strategyOverride : Option Strategy
deriving DecidableEq, Repr

structure PlanSummary where
  totalInterestCost : ℚ
  monthsToDebtFree : ℕ
  debtFreeDate : String
deriving DecidableEq, Repr

structure SimulationResult where
  current : PlanSummary
  simulated : PlanSummary
  interestSaved : ℚ
  monthsSaved : ℤ
deriving DecidableEq, Repr

/-- `simulateScenario`: runs the engine twice — once with the baseline
policy and no one-time extra, once with the overrides substituted — and
diffs the two summaries. -/
def simulateScenario (now : NowClock) (input : SimulationInput) :
    SimulationResult :=
  let current := calculatePayoffPlan now
    ⟨input.cards, input.monthlyExtraBudget, input.strategy, none⟩
  let simulated := calculatePayoffPlan now
    ⟨input.cards,
     (match input.budgetChange with
      | some b => b
      | none => input.monthlyExtraBudget),
     input.strategyOverride.getD input.strategy,
     input.oneTimePayment⟩
  { current := ⟨current.totalInterestCost, current.monthsToDebtFree,
                current.debtFreeDate⟩
    simulated := ⟨simulated.totalInterestCost, simulated.monthsToDebtFree,
                  simulated.debtFreeDate⟩
    interestSaved :=
      roundCents (current.totalInterestCost - simulated.totalInterestCost)
    monthsSaved :=
      (current.monthsToDebtFree : ℤ) - (simulated.monthsToDebtFree : ℤ) }

-- --- Credit utilization engine ---

inductive Rating
  | excellent
  | good
  | fair
  | poor
  | very_poor
deriving DecidableEq, Repr

inductive RatingColor
  | green
  | yellow
  | orange
  | red
deriving DecidableEq, Repr

structure RatingInfo where
  rating : Rating
  impact : String
  color : RatingColor
deriving DecidableEq, Repr

/-- The fixed utilization band table. -/
def getRatingFromUtilization (u : ℚ) : RatingInfo :=
  if u < 10 then ⟨.excellent, "Excellent", .green⟩
  else if u < 30 then ⟨.good, "Good", .green⟩
  else if u < 50 then ⟨.fair, "Fair", .yellow⟩
  else if u < 75 then ⟨.poor, "Poor", .orange⟩
  else ⟨.very_poor, "Very Poor", .red⟩

structure CardUtilizationInput where
  id : String
  cardName : String
  userName : String
  userId : String
  currentBalance : ℚ
  creditLimit : ℚ
deriving DecidableEq, Repr

structure CardUtilization where
  cardId : String
  cardName : String
  userName : String
  userId : String
  balance : ℚ
  creditLimit : ℚ
  utilization : ℚ
  info : RatingInfo
deriving DecidableEq, Repr

structure UserUtilization where
  userId : String
  userName : String
  totalBalance : ℚ
  totalCreditLimit : ℚ
  utilization : ℚ
  info : RatingInfo
  cardCount : ℕ
deriving DecidableEq, Repr

structure HouseholdUtilization where
  totalBalance : ℚ
  totalCreditLimit : ℚ
  utilization : ℚ
  info : RatingInfo
  cardCount : ℕ
deriving DecidableEq, Repr

structure UtilizationResult where
  household : HouseholdUtilization
  perUser : List UserUtilization
  perCard : List CardUtilization
deriving DecidableEq, Repr

/-- The per-user accumulator held in the source's `userMap`. -/
structure UserAcc where
  userId : String
  userName : String
  totalBalance : ℚ
  totalCreditLimit : ℚ
  cardCount : ℕ
deriving DecidableEq, Repr

/-- One `userMap` step: update the entry for the card's user in place, or
append a fresh entry (a JavaScript `Map` preserves insertion order). -/
def upsertUser (acc : List UserAcc) (c : CardUtilizationInput) : List UserAcc :=
  match acc with
  | [] => [⟨c.userId, c.userName, c.currentBalance, c.creditLimit, 1⟩]
  | a :: rest =>
    if a.userId = c.userId then
      { a with
        totalBalance := a.totalBalance + c.currentBalance
        totalCreditLimit := a.totalCreditLimit + c.creditLimit
        cardCount := a.cardCount + 1 } :: rest
    else a :: upsertUser rest c

def userAccsOf (cards : List CardUtilizationInput) : List UserAcc :=
  cards.foldl upsertUser []

/-- `calculateUtilization`: per-card, per-user and household ratios. -/
def calculateUtilization (cards : List CardUtilizationInput) :
    UtilizationResult :=
  if cards.isEmpty then
    { household := ⟨0, 0, 0, ⟨.excellent, "Excellent", .green⟩, 0⟩
      perUser := []
      perCard := [] }
  else
    let perCard : List CardUtilization := cards.map
      (fun card =>
        let utilization :=
          if 0 < card.creditLimit then
            roundPercent ((card.currentBalance / card.creditLimit) * 100)
          else 0
        ⟨card.id, card.cardName, card.userName, card.userId,
         roundCents card.currentBalance, roundCents card.creditLimit,
         utilization, getRatingFromUtilization utilization⟩)
    let perUser : List UserUtilization := (userAccsOf cards).map
      (fun user =>
        let utilization :=
          if 0 < user.totalCreditLimit then
            roundPercent ((user.totalBalance / user.totalCreditLimit) * 100)
          else 0
        ⟨user.userId, user.userName, roundCents user.totalBalance,
         roundCents user.totalCreditLimit, utilization,
         getRatingFromUtilization utilization, user.cardCount⟩)
    let totalBalance :=
      roundCents (cards.foldl (fun a c => a + c.currentBalance) 0)
    let totalCreditLimit :=
      roundCents (cards.foldl (fun a c => a + c.creditLimit) 0)
    let householdUtilization :=
      if 0 < totalCreditLimit then
        roundPercent ((totalBalance / totalCreditLimit) * 100)
      else 0
    { household := ⟨totalBalance, totalCreditLimit, householdUtilization,
                    getRatingFromUtilization householdUtilization,
                    cards.length⟩
      perUser := perUser
      perCard := perCard }

-- --- Milestones ---

structure Milestone where
  threshold : ℚ
  label : String
  impact : String
  rating : Rating
  color : RatingColor
  dollarsNeeded : ℚ
  achieved : Bool
deriving DecidableEq, Repr

structure MilestonesResult where
  currentUtilization : ℚ
  currentBalance : ℚ
  currentCreditLimit : ℚ
  milestones : List Milestone
deriving DecidableEq, Repr

structure ThresholdSpec where
  threshold : ℚ
  impact : String
  rating : Rating
  color : RatingColor

def milestoneThresholds : List ThresholdSpec :=
  [⟨75, "Very Poor", .very_poor, .red⟩,
   ⟨50, "Poor", .poor, .orange⟩,
   ⟨30, "Fair", .fair, .yellow⟩,
   ⟨10, "Good", .good, .green⟩]

def thresholdLabel (t : ℚ) : String :=
  if t = 75 then "75%" else if t = 50 then "50%"
  else if t = 30 then "30%" else if t = 10 then "10%" else ""

/-- `calculateMilestones`: dollar distance to each fixed threshold. -/
def calculateMilestones (currentBalance currentCreditLimit : ℚ) :
    MilestonesResult :=
  if currentCreditLimit ≤ 0 then
    { currentUtilization := 0
      currentBalance := roundCents currentBalance
      currentCreditLimit := 0
      milestones :=
        [⟨75, "75%", "Very Poor", .very_poor, .red, 0, true⟩,
         ⟨50, "50%", "Poor", .poor, .orange, 0, true⟩,
         ⟨30, "30%", "Fair", .fair, .yellow, 0, true⟩,
         ⟨10, "10%", "Good", .good, .green, 0, true⟩] }
  else
    let currentUtilization :=
      roundPercent ((currentBalance / currentCreditLimit) * 100)
    { currentUtilization := currentUtilization
      currentBalance := roundCents currentBalance
      currentCreditLimit := roundCents currentCreditLimit
      milestones := milestoneThresholds.map
        (fun m =>
          let targetBalance := (m.threshold / 100) * currentCreditLimit
          let dollarsNeeded :=
            if targetBalance < currentBalance then
              roundCents (currentBalance - targetBalance)
            else 0
          ⟨m.threshold, thresholdLabel m.threshold, m.impact, m.rating,
           m.color, dollarsNeeded,
           decide (currentUtilization ≤ m.threshold)⟩) }

-- --- Generic list helpers ---

theorem foldl_add_eq_sum {α : Type} (f : α → ℚ) (l : List α) (a : ℚ) :
    l.foldl (fun a c => a + f c) a = a + (l.map f).sum := by
  induction l generalizing a with
  | nil => simp
  | cons c cs ih => simp [ih, add_assoc]

theorem sum_map_nonneg {α : Type} {f : α → ℚ} {l : List α}
    (h : ∀ c ∈ l, 0 ≤ f c) : 0 ≤ (l.map f).sum := by
  induction l with
  | nil => simp
  | cons c cs ih =>
    simp only [List.map_cons, List.sum_cons]
    have := h c (List.mem_cons_self c cs)
    have := ih (fun x hx => h x (List.mem_cons_of_mem c hx))
    linarith

/-- Sum of `f` over a filtered list as a sum of if-then-else terms. -/
theorem sum_filter_eq_sum_ite {α : Type} (p : α → Bool) (f : α → ℚ)
    (l : List α) :
    ((l.filter p).map f).sum = (l.map (fun c => if p c then f c else 0)).sum := by
  induction l with
  | nil => simp
  | cons c cs ih =>
    by_cases h : p c <;> simp [List.filter_cons, h, ih]

-- --- Pointwise characterization of the per-card fold phases ---

/-- A fold that visits each card once and rewrites the balance at the
card's own id as a function of its current value. -/
def pointwiseFold (f : CardInput → ℚ → ℚ) (cs : List CardInput)
    (b : String → ℚ) : String → ℚ :=
  cs.foldl (fun b c => Function.update b c.id (f c (b c.id))) b

theorem pointwiseFold_nil (f) (b : String → ℚ) : pointwiseFold f [] b = b := rfl

theorem pointwiseFold_cons (f) (c : CardInput) (cs : List CardInput)
    (b : String → ℚ) :
    pointwiseFold f (c :: cs) b =
      pointwiseFold f cs (Function.update b c.id (f c (b c.id))) := rfl

theorem pointwiseFold_not_mem (f) {cs : List CardInput} {x : String}
    (hx : x ∉ cs.map (fun c => c.id)) (b : String → ℚ) :
    pointwiseFold f cs b x = b x := by
  induction cs generalizing b with
  | nil => rfl
  | cons c cs ih =>
    simp only [List.map_cons, List.mem_cons, not_or] at hx
    rw [pointwiseFold_cons, ih hx.2, Function.update_noteq hx.1]

theorem pointwiseFold_mem (f) {cs : List CardInput} {c : CardInput}
    (hnd : (cs.map (fun c => c.id)).Nodup) (hc : c ∈ cs) (b : String → ℚ) :
    pointwiseFold f cs b c.id = f c (b c.id) := by
  induction cs generalizing b with
  | nil => cases hc
  | cons d cs ih =>
    simp only [List.map_cons, List.nodup_cons] at hnd
    rcases List.mem_cons.mp hc with rfl | hc2
    · rw [pointwiseFold_cons,
        pointwiseFold_not_mem f hnd.1 _, Function.update_same]
    · have hne : c.id ≠ d.id := by
        intro h
        exact hnd.1 (h ▸ List.mem_map_of_mem (fun c => c.id) hc2)
      rw [pointwiseFold_cons, ih hnd.2 hc2, Function.update_noteq hne]

-- --- Phase characterizations ---

/-- The per-card rewrite performed by `accrue`. -/
def accrueFn (c : CardInput) (v : ℚ) : ℚ :=
  if v ≤ 0 then v else roundCents (v + calculateMonthlyInterest v c.apr)

/-- The per-card rewrite performed by `applyMinimums`. -/
def minFn (c : CardInput) (v : ℚ) : ℚ :=
  if v ≤ 0 then v else roundCents (v - min c.minimumPayment v)

theorem accrue_fst (cs : List CardInput) (b : String → ℚ) :
    (accrue cs b).1 = pointwiseFold accrueFn cs b := by
  suffices h : ∀ (cs : List CardInput) (b : String → ℚ) (t : ℚ),
      (cs.foldl
        (fun acc c =>
          let v := acc.1 c.id
          if v ≤ 0 then acc
          else
            let i := calculateMonthlyInterest v c.apr
            (Function.update acc.1 c.id (roundCents (v + i)), acc.2 + i))
        (b, t)).1 = pointwiseFold accrueFn cs b by
    exact h cs b 0
  intro cs
  induction cs with
  | nil => intro b t; rfl
  | cons c cs ih =>
    intro b t
    simp only [List.foldl_cons, pointwiseFold_cons]
    by_cases h : b c.id ≤ 0
    · simp only [h, if_pos, accrueFn, if_pos h, Function.update_eq_self]
      exact ih b t
    · simp only [h, if_neg, accrueFn, if_neg h]
      exact ih _ _

theorem calculateMonthlyInterest_nonneg {v apr : ℚ} (hv : 0 ≤ v)
    (ha : 0 ≤ apr) : 0 ≤ calculateMonthlyInterest v apr :=
  roundCents_nonneg (by positivity)

theorem accrue_snd_nonneg (cs : List CardInput) (b : String → ℚ)
    (ha : ∀ c ∈ cs, 0 ≤ c.apr) : 0 ≤ (accrue cs b).2 := by
  suffices h : ∀ (cs : List CardInput) (b : String → ℚ) (t : ℚ),
      (∀ c ∈ cs, 0 ≤ c.apr) →
      t ≤ (cs.foldl
        (fun acc c =>
          let v := acc.1 c.id
          if v ≤ 0 then acc
          else
            let i := calculateMonthlyInterest v c.apr
            (Function.update acc.1 c.id (roundCents (v + i)), acc.2 + i))
        (b, t)).2 by
    exact h cs b 0 ha
  intro cs
  induction cs with
  | nil => intro b t _; exact le_rfl
  | cons c cs ih =>
    intro b t hc
    simp only [List.foldl_cons]
    by_cases h : b c.id ≤ 0
    · rw [if_pos h]
      exact ih b t (fun d hd => hc d (List.mem_cons_of_mem c hd))
    · rw [if_neg h]
      have hi : 0 ≤ calculateMonthlyInterest (b c.id) c.apr :=
        calculateMonthlyInterest_nonneg (le_of_lt (lt_of_not_le h))
          (hc c (List.mem_cons_self c cs))
      have := ih (Function.update b c.id
          (roundCents (b c.id + calculateMonthlyInterest (b c.id) c.apr)))
        (t + calculateMonthlyInterest (b c.id) c.apr)
        (fun d hd => hc d (List.mem_cons_of_mem c hd))
      exact le_trans (by linarith) this

theorem applyMinimums_eq (cs : List CardInput) (b : String → ℚ) :
    applyMinimums cs b = pointwiseFold minFn cs b := by
  induction cs generalizing b with
  | nil => rfl
  | cons c cs ih =>
    simp only [applyMinimums, List.foldl_cons, pointwiseFold_cons]
    by_cases h : b c.id ≤ 0
    · simp only [h, if_pos, minFn, if_pos h, Function.update_eq_self]
      exact ih _
    · simp only [h, if_neg, minFn, if_neg h]
      exact ih _

/-- If the rewrite never changes an id's value in a way that violates a
pointwise predicate, the fold preserves the predicate everywhere. -/
theorem pointwiseFold_pred (f) (cs : List CardInput)
    (P : String → ℚ → Prop)
    (hf : ∀ c ∈ cs, ∀ v, P c.id v → P c.id (f c v)) :
    ∀ (b : String → ℚ), (∀ x, P x (b x)) →
      ∀ x, P x (pointwiseFold f cs b x) := by
  induction cs with
  | nil => intro b hb x; exact hb x
  | cons c cs ih =>
    intro b hb x
    rw [pointwiseFold_cons]
    refine ih (fun d hd v hv => hf d (List.mem_cons_of_mem c hd) v hv) _ ?_ x
    intro y
    by_cases hy : y = c.id
    · subst hy
      rw [Function.update_same]
      exact hf c (List.mem_cons_self c cs) _ (hb c.id)
    · rw [Function.update_noteq hy]
      exact hb y

/-- The allocation fold only rewrites a positive balance (under a
positive remaining budget) to `roundCents (v - roundCents (min av v))`;
any pointwise predicate closed under that rewrite is preserved. -/
theorem allocate_pred (sorted : List CardInput) (month : ℕ)
    (P : String → ℚ → Prop)
    (hP : ∀ c ∈ sorted, ∀ v av, 0 < av → 0 < v → P c.id v →
      P c.id (roundCents (v - roundCents (min av v)))) :
    ∀ (b : String → ℚ) (avail : ℚ) (m1e : String → ℚ),
      (∀ x, P x (b x)) →
      ∀ x, P x ((allocate sorted month b avail m1e).1 x) := by
  induction sorted with
  | nil => intro b avail m1e hb x; exact hb x
  | cons c cs ih =>
    intro b avail m1e hb x
    have hPrest : ∀ d ∈ cs, ∀ v av, 0 < av → 0 < v → P d.id v →
        P d.id (roundCents (v - roundCents (min av v))) :=
      fun d hd => hP d (List.mem_cons_of_mem c hd)
    simp only [allocate, List.foldl_cons]
    by_cases hav : avail ≤ 0
    · rw [if_pos hav]
      exact ih hPrest b avail m1e hb x
    · rw [if_neg hav]
      by_cases hv : b c.id ≤ 0
      · rw [if_pos hv]
        exact ih hPrest b avail m1e hb x
      · rw [if_neg hv]
        refine ih hPrest _ _ _ ?_ x
        intro y
        by_cases hy : y = c.id
        · subst hy
          rw [Function.update_same]
          exact hP c (List.mem_cons_self c cs) _ avail
            (lt_of_not_le hav) (lt_of_not_le hv) (hb c.id)
        · rw [Function.update_noteq hy]
          exact hb y

/-- When every balance is non-negative, the cascade's clamp-to-zero is a
value-level no-op, and the freed pool, paid-off list and payoff dates are
computed from the cards newly at zero. -/
theorem cascade_eq (cs : List CardInput) (m : ℕ) (b : String → ℚ) (f : ℚ)
    (paid : List String) (pd : String → Option ℕ)
    (hnd : (cs.map (fun c => c.id)).Nodup) (hb : ∀ x, 0 ≤ b x) :
    cascade cs m b f paid pd =
      (b,
       ((cs.filter (fun c => decide (b c.id ≤ 0) && decide (c.id ∉ paid))).map
          (fun c => c.minimumPayment)).foldl (fun f mp => roundCents (f + mp)) f,
       paid ++ (cs.filter (fun c => decide (b c.id ≤ 0) && decide (c.id ∉ paid))).map
          (fun c => c.id),
       (cs.filter (fun c => decide (b c.id ≤ 0) && decide (c.id ∉ paid))).foldl
          (fun (pd : String → Option ℕ) (c : CardInput) =>
            Function.update pd c.id (some m)) pd) := by
  induction cs generalizing f paid pd with
  | nil => simp [cascade]
  | cons c cs ih =>
    simp only [List.map_cons, List.nodup_cons] at hnd
    have hrest : ∀ d ∈ cs, ¬ d.id = c.id := by
      intro d hd h
      exact hnd.1 (h ▸ List.mem_map_of_mem (fun c => c.id) hd)
    simp only [cascade, List.foldl_cons, List.filter_cons]
    by_cases hc : b c.id ≤ 0 ∧ c.id ∉ paid
    · have hdec : (decide (b c.id ≤ 0) && decide (c.id ∉ paid)) = true := by
        simp [hc.1, hc.2]
      have hupd : Function.update b c.id 0 = b := by
        have hz : b c.id = 0 := le_antisymm hc.1 (hb c.id)
        rw [← hz, Function.update_eq_self]
      rw [if_pos hc, if_pos hdec, hupd]
      have hfilter :
          cs.filter (fun d => decide (b d.id ≤ 0) &&
              decide (d.id ∉ paid ++ [c.id])) =
            cs.filter (fun d => decide (b d.id ≤ 0) &&
              decide (d.id ∉ paid)) := by
        refine List.filter_congr ?_
        intro d hd
        simp [List.mem_append, hrest d hd]
      have heq := ih (roundCents (f + c.minimumPayment)) (paid ++ [c.id])
        (Function.update pd c.id (some m)) hnd.2
      simp only [cascade] at heq
      rw [heq, hfilter]
      simp [List.append_assoc]
    · have hdec : ¬ ((decide (b c.id ≤ 0) && decide (c.id ∉ paid)) = true) := by
        simpa using hc
      rw [if_neg hc, if_neg hdec]
      have heq := ih f paid pd hnd.2
      simp only [cascade] at heq
      exact heq

-- --- The simulation-state invariant ---

def activeIds (p : Params) : List String := p.active.map (fun c => c.id)

/-- Validity of the loop parameters: distinct instrument ids, positive
initial balances on the active side, non-negative APRs and minimums. -/
structure ValidParams (p : Params) : Prop where
  idsNodup : (activeIds p).Nodup
  activePos : ∀ c ∈ p.active, 0 < c.currentBalance
  aprNonneg : ∀ c ∈ p.active, 0 ≤ c.apr
  mpNonneg : ∀ c ∈ p.active, 0 ≤ c.minimumPayment

/-- The invariant maintained by every month of the loop. -/
structure StInv (p : Params) (s : SimState) : Prop where
  balOff : ∀ x, x ∉ activeIds p → s.bal x = 0
  balNonneg : ∀ x, 0 ≤ s.bal x
  balCents : ∀ x, Cents (s.bal x) ∨
    ∃ c ∈ p.active, c.id = x ∧ s.bal x = c.currentBalance
  freedNonneg : 0 ≤ s.freed
  freedCents : Cents s.freed
  paidNodup : s.paid.Nodup
  paidSub : ∀ i ∈ s.paid, i ∈ activeIds p

theorem initState_inv (p : Params) (hv : ValidParams p) :
    StInv p (initState p) := by
  refine ⟨?_, ?_, ?_, le_rfl, Cents.zero, List.nodup_nil,
    by intro i hi; cases hi⟩
  · intro x hx
    have : p.active.find? (fun c => decide (c.id = x)) = none := by
      rw [List.find?_eq_none]
      intro c hc
      simp only [decide_eq_true_eq]
      intro h
      exact hx (h ▸ List.mem_map_of_mem (fun c => c.id) hc)
    simp [initState, this]
  · intro x
    rcases h : p.active.find? (fun c => decide (c.id = x)) with _ | c
    · simp [initState, h]
    · have hc := List.mem_of_find?_eq_some h
      simp only [initState, h, Option.map_some, Option.getD_some]
      exact le_of_lt (hv.activePos c hc)
  · intro x
    rcases h : p.active.find? (fun c => decide (c.id = x)) with _ | c
    · left
      simp [initState, h, Cents.zero]
    · right
      have hc := List.mem_of_find?_eq_some h
      have hid : c.id = x := by
        have := List.find?_some h
        simpa using this
      exact ⟨c, hc, hid, by simp [initState, h]⟩

-- --- Phase compositions as named functions ---

def balPhase1 (p : Params) (s : SimState) : String → ℚ :=
  pointwiseFold accrueFn p.active s.bal

def balPhase2 (p : Params) (s : SimState) : String → ℚ :=
  pointwiseFold minFn p.active (balPhase1 p s)

def sortedCards (p : Params) (s : SimState) : List CardInput :=
  sortCardsByStrategy
    ((p.active.filter (fun c => 0 < balPhase2 p s c.id ∧ c.id ∉ s.paid)).map
      (fun c => { c with currentBalance := balPhase2 p s c.id })) p.strategy

def balPhase3 (p : Params) (m : ℕ) (s : SimState) : String → ℚ :=
  (allocate (sortedCards p s) m (balPhase2 p s) (monthAvail p m s.freed)
    s.m1Extra).1

/-- The cards that newly reach zero balance in this month's cascade. -/
def newlyPaid (p : Params) (m : ℕ) (s : SimState) : List CardInput :=
  p.active.filter
    (fun c => decide (balPhase3 p m s c.id ≤ 0) && decide (c.id ∉ s.paid))

theorem balPhase1_off (p : Params) (s : SimState) (hs : StInv p s) :
    ∀ x, x ∉ activeIds p → balPhase1 p s x = 0 := by
  intro x hx
  rw [balPhase1, pointwiseFold_not_mem accrueFn hx]
  exact hs.balOff x hx

theorem balPhase1_mem (p : Params) (s : SimState) (hv : ValidParams p)
    {c : CardInput} (hc : c ∈ p.active) :
    balPhase1 p s c.id = accrueFn c (s.bal c.id) :=
  pointwiseFold_mem accrueFn hv.idsNodup hc s.bal

theorem balPhase1_facts (p : Params) (s : SimState) (hv : ValidParams p)
    (hs : StInv p s) :
    ∀ x, 0 ≤ balPhase1 p s x ∧ Cents (balPhase1 p s x) := by
  intro x
  by_cases hx : x ∈ activeIds p
  · obtain ⟨c, hc, hcx⟩ := List.mem_map.mp hx
    subst hcx
    rw [balPhase1_mem p s hv hc]
    unfold accrueFn
    by_cases h : s.bal c.id ≤ 0
    · have hz : s.bal c.id = 0 := le_antisymm h (hs.balNonneg c.id)
      rw [if_pos h, hz]
      exact ⟨le_rfl, Cents.zero⟩
    · rw [if_neg h]
      have hi : 0 ≤ calculateMonthlyInterest (s.bal c.id) c.apr :=
        calculateMonthlyInterest_nonneg (hs.balNonneg c.id) (hv.aprNonneg c hc)
      exact ⟨roundCents_nonneg (by linarith [hs.balNonneg c.id]),
        roundCents_cents _⟩
  · rw [balPhase1_off p s hs x hx]
    exact ⟨le_rfl, Cents.zero⟩

theorem balPhase2_mem (p : Params) (s : SimState) (hv : ValidParams p)
    {c : CardInput} (hc : c ∈ p.active) :
    balPhase2 p s c.id = minFn c (balPhase1 p s c.id) :=
  pointwiseFold_mem minFn hv.idsNodup hc _

theorem balPhase2_facts (p : Params) (s : SimState) (hv : ValidParams p)
    (hs : StInv p s) :
    ∀ x, 0 ≤ balPhase2 p s x ∧ Cents (balPhase2 p s x) ∧
      balPhase2 p s x ≤ balPhase1 p s x := by
  intro x
  by_cases hx : x ∈ activeIds p
  · obtain ⟨c, hc, hcx⟩ := List.mem_map.mp hx
    subst hcx
    obtain ⟨h1n, h1c⟩ := balPhase1_facts p s hv hs c.id
    rw [balPhase2_mem p s hv hc]
    unfold minFn
    by_cases h : balPhase1 p s c.id ≤ 0
    · rw [if_pos h]
      exact ⟨h1n, h1c, le_rfl⟩
    · rw [if_neg h]
      have hmple : min c.minimumPayment (balPhase1 p s c.id) ≤
          balPhase1 p s c.id := min_le_right _ _
      have hmpnn : 0 ≤ min c.minimumPayment (balPhase1 p s c.id) :=
        le_min (hv.mpNonneg c hc) (le_of_lt (lt_of_not_le h))
      refine ⟨roundCents_nonneg (by linarith), roundCents_cents _, ?_⟩
      calc roundCents (balPhase1 p s c.id -
            min c.minimumPayment (balPhase1 p s c.id))
          ≤ roundCents (balPhase1 p s c.id) := roundCents_mono (by linarith)
        _ = balPhase1 p s c.id := roundCents_eq_self h1c
  · have h1 : balPhase1 p s x = 0 := balPhase1_off p s hs x hx
    have h2 : balPhase2 p s x = balPhase1 p s x := by
      rw [balPhase2, pointwiseFold_not_mem minFn hx]
    rw [h2, h1]
    exact ⟨le_rfl, Cents.zero, le_rfl⟩

theorem balPhase3_facts (p : Params) (m : ℕ) (s : SimState)
    (hv : ValidParams p) (hs : StInv p s) :
    ∀ x, 0 ≤ balPhase3 p m s x ∧ balPhase3 p m s x ≤ balPhase2 p s x ∧
      Cents (balPhase3 p m s x) := by
  refine allocate_pred (sortedCards p s) m
    (fun x v => 0 ≤ v ∧ v ≤ balPhase2 p s x ∧ Cents v) ?_
    (balPhase2 p s) (monthAvail p m s.freed) s.m1Extra ?_
  · intro c _ v av hav hv0 ⟨hvn, hvle, hvc⟩
    have halloc_le : roundCents (min av v) ≤ v := by
      calc roundCents (min av v) ≤ roundCents v :=
            roundCents_mono (min_le_right _ _)
        _ = v := roundCents_eq_self hvc
    have halloc_nn : 0 ≤ roundCents (min av v) :=
      roundCents_nonneg (le_min (le_of_lt hav) (le_of_lt hv0))
    have hle : roundCents (v - roundCents (min av v)) ≤ v := by
      calc roundCents (v - roundCents (min av v)) ≤ roundCents v :=
            roundCents_mono (by linarith)
        _ = v := roundCents_eq_self hvc
    exact ⟨roundCents_nonneg (by linarith), le_trans hle hvle,
      roundCents_cents _⟩
  · intro x
    obtain ⟨h2n, h2c, _⟩ := balPhase2_facts p s hv hs x
    exact ⟨h2n, le_rfl, h2c⟩

-- --- stepState projections ---

theorem stepState_bal (p : Params) (m : ℕ) (s : SimState) :
    (stepState p m s).1.bal =
      (cascade p.active m (balPhase3 p m s) s.freed s.paid s.payoffMonth).1 := by
  simp only [stepState, accrue_fst, applyMinimums_eq]
  rfl

theorem stepState_paid (p : Params) (m : ℕ) (s : SimState) :
    (stepState p m s).1.paid =
      (cascade p.active m (balPhase3 p m s) s.freed s.paid
        s.payoffMonth).2.2.1 := by
  simp only [stepState, accrue_fst, applyMinimums_eq]
  rfl

theorem stepState_freed (p : Params) (m : ℕ) (s : SimState) :
    (stepState p m s).1.freed =
      (cascade p.active m (balPhase3 p m s) s.freed s.paid
        s.payoffMonth).2.1 := by
  simp only [stepState, accrue_fst, applyMinimums_eq]
  rfl

theorem stepState_cumInt (p : Params) (m : ℕ) (s : SimState) :
    (stepState p m s).1.cumInt =
      roundCents (s.cumInt + roundCents (accrue p.active s.bal).2) := rfl

theorem stepState_snd (p : Params) (m : ℕ) (s : SimState) :
    (stepState p m s).2 = roundCents (accrue p.active s.bal).2 := rfl

theorem stepState_bal_eq (p : Params) (m : ℕ) (s : SimState)
    (hv : ValidParams p) (hs : StInv p s) :
    (stepState p m s).1.bal = balPhase3 p m s := by
  rw [stepState_bal, cascade_eq p.active m (balPhase3 p m s) s.freed s.paid
    s.payoffMonth hv.idsNodup (fun x => (balPhase3_facts p m s hv hs x).1)]

theorem stepState_paid_eq (p : Params) (m : ℕ) (s : SimState)
    (hv : ValidParams p) (hs : StInv p s) :
    (stepState p m s).1.paid =
      s.paid ++ (newlyPaid p m s).map (fun c => c.id) := by
  rw [stepState_paid, cascade_eq p.active m (balPhase3 p m s) s.freed s.paid
    s.payoffMonth hv.idsNodup (fun x => (balPhase3_facts p m s hv hs x).1)]
  rfl

theorem stepState_freed_eq (p : Params) (m : ℕ) (s : SimState)
    (hv : ValidParams p) (hs : StInv p s) :
    (stepState p m s).1.freed =
      ((newlyPaid p m s).map (fun c => c.minimumPayment)).foldl
        (fun f mp => roundCents (f + mp)) s.freed := by
  rw [stepState_freed, cascade_eq p.active m (balPhase3 p m s) s.freed s.paid
    s.payoffMonth hv.idsNodup (fun x => (balPhase3_facts p m s hv hs x).1)]
  rfl

theorem foldl_roundAdd_facts (l : List ℚ) (f : ℚ) (hf : Cents f)
    (hl : ∀ mp ∈ l, 0 ≤ mp) :
    Cents (l.foldl (fun f mp => roundCents (f + mp)) f) ∧
      f ≤ l.foldl (fun f mp => roundCents (f + mp)) f := by
  induction l generalizing f with
  | nil => exact ⟨hf, le_rfl⟩
  | cons mp l ih =>
    simp only [List.foldl_cons]
    have hmp : 0 ≤ mp := hl mp (List.mem_cons_self mp l)
    have hstep : f ≤ roundCents (f + mp) := by
      have := roundCents_mono (le_add_of_nonneg_right hmp (a := f))
      rwa [roundCents_eq_self hf] at this
    obtain ⟨hc, hle⟩ := ih (roundCents (f + mp)) (roundCents_cents _)
      (fun x hx => hl x (List.mem_cons_of_mem mp hx))
    exact ⟨hc, le_trans hstep hle⟩

/-- When every added amount is an exact number of cents, the source's
round-after-each-add accumulation is a plain sum. -/
theorem foldl_roundAdd_eq_sum (l : List ℚ) (f : ℚ) (hf : Cents f)
    (hl : ∀ mp ∈ l, Cents mp) :
    l.foldl (fun f mp => roundCents (f + mp)) f = f + l.sum := by
  induction l generalizing f with
  | nil => simp
  | cons mp l ih =>
    simp only [List.foldl_cons, List.sum_cons]
    have hmp : Cents mp := hl mp (List.mem_cons_self mp l)
    rw [roundCents_eq_self (hf.add hmp),
      ih (f + mp) (hf.add hmp) (fun x hx => hl x (List.mem_cons_of_mem mp hx))]
    ring

theorem newlyPaid_subset (p : Params) (m : ℕ) (s : SimState) :
    ∀ c ∈ newlyPaid p m s, c ∈ p.active := fun _ hc =>
  List.mem_of_mem_filter hc

theorem stepState_inv (p : Params) (m : ℕ) (s : SimState)
    (hv : ValidParams p) (hs : StInv p s) :
    StInv p (stepState p m s).1 := by
  have hb3 := balPhase3_facts p m s hv hs
  have hb2 := balPhase2_facts p s hv hs
  have hbal := stepState_bal_eq p m s hv hs
  have hpaid := stepState_paid_eq p m s hv hs
  have hfreed := stepState_freed_eq p m s hv hs
  have hmpnn : ∀ mp ∈ (newlyPaid p m s).map (fun c => c.minimumPayment),
      0 ≤ mp := by
    intro mp hmp
    obtain ⟨c, hc, rfl⟩ := List.mem_map.mp hmp
    exact hv.mpNonneg c (newlyPaid_subset p m s c hc)
  obtain ⟨hfc, hfle⟩ := foldl_roundAdd_facts _ s.freed hs.freedCents hmpnn
  refine ⟨?_, ?_, ?_, ?_, ?_, ?_, ?_⟩
  · intro x hx
    rw [hbal]
    have h2z : balPhase2 p s x = 0 := by
      have := (hb2 x).2.2
      rw [balPhase2, pointwiseFold_not_mem minFn hx, balPhase1,
        pointwiseFold_not_mem accrueFn hx]
      exact hs.balOff x hx
    exact le_antisymm (h2z ▸ (hb3 x).2.1) (hb3 x).1
  · intro x
    rw [hbal]
    exact (hb3 x).1
  · intro x
    rw [hbal]
    exact Or.inl (hb3 x).2.2
  · rw [hfreed]
    exact le_trans hs.freedNonneg hfle
  · rw [hfreed]
    exact hfc
  · rw [hpaid]
    refine List.Nodup.append hs.paidNodup ?_ ?_
    · have hsub : List.Sublist (newlyPaid p m s) p.active :=
        List.filter_sublist _
      have hsub2 : List.Sublist ((newlyPaid p m s).map (fun c => c.id))
          (activeIds p) := List.Sublist.map _ hsub
      exact List.Nodup.sublist hsub2 hv.idsNodup
    · intro i hi hi2
      obtain ⟨c, hc, rfl⟩ := List.mem_map.mp hi2
      have := List.of_mem_filter hc
      simp only [Bool.and_eq_true, decide_eq_true_eq] at this
      exact this.2 hi
  · intro i hi
    rw [hpaid] at hi
    rcases List.mem_append.mp hi with h | h
    · exact hs.paidSub i h
    · obtain ⟨c, hc, rfl⟩ := List.mem_map.mp h
      exact List.mem_map_of_mem _ (newlyPaid_subset p m s c hc)

theorem runState_zero (p : Params) : runState p 0 = initState p := rfl

theorem runState_succ (p : Params) (n : ℕ) :
    runState p (n + 1) =
      if stoppedAt p (runState p n) then runState p n
      else (stepState p (n + 1) (runState p n)).1 := by
  simp only [runState, runAux]
  by_cases h : stoppedAt p (runAux p n).1 <;> simp [h]

theorem monthsExecuted_succ_aux (p : Params) (n : ℕ) :
    (runAux p (n + 1)).2 =
      if stoppedAt p (runState p n) then (runAux p n).2
      else (runAux p n).2 + 1 := by
  by_cases h : stoppedAt p (runState p n) <;>
    simp [runState, runAux, h] at h ⊢ <;> simp [h]

theorem runState_inv (p : Params) (hv : ValidParams p) :
    ∀ n, StInv p (runState p n) := by
  intro n
  induction n with
  | zero => exact initState_inv p hv
  | succ n ih =>
    rw [runState_succ]
    by_cases h : stoppedAt p (runState p n)
    · rwa [if_pos h]
    · rw [if_neg h]
      exact stepState_inv p (n + 1) (runState p n) hv ih

-- --- Run-level lemmas ---

theorem runAux_frozen (p : Params) (n : ℕ)
    (h : stoppedAt p (runState p n)) :
    ∀ m, n ≤ m → runAux p m = runAux p n := by
  intro m hm
  induction m with
  | zero =>
    cases Nat.le_zero.mp hm
    rfl
  | succ m ih =>
    rcases Nat.lt_or_ge n (m + 1) with hlt | hge
    · have hnm : n ≤ m := Nat.lt_succ_iff.mp hlt
      have hfroz := ih hnm
      have hstop : stoppedAt p (runAux p m).1 := by
        have : (runAux p m).1 = (runAux p n).1 := by rw [hfroz]
        rw [this]
        exact h
      show (if stoppedAt p (runAux p m).1 then runAux p m
        else ((stepState p (m + 1) (runAux p m).1).1, (runAux p m).2 + 1)) =
          runAux p n
      rw [if_pos hstop, hfroz]
    · have := Nat.le_antisymm hm hge
      rw [this]

theorem runAux_count_le (p : Params) : ∀ n, (runAux p n).2 ≤ n := by
  intro n
  induction n with
  | zero => exact le_rfl
  | succ n ih =>
    show (if stoppedAt p (runAux p n).1 then runAux p n
      else ((stepState p (n + 1) (runAux p n).1).1, (runAux p n).2 + 1)).2 ≤
        n + 1
    by_cases h : stoppedAt p (runAux p n).1
    · rw [if_pos h]
      exact le_trans ih (Nat.le_succ n)
    · rw [if_neg h]
      exact Nat.succ_le_succ ih

theorem monthsExecuted_le (p : Params) : monthsExecuted p ≤ MAX_MONTHS :=
  runAux_count_le p MAX_MONTHS

theorem stopped_mono (p : Params) {n m : ℕ} (hnm : n ≤ m)
    (h : stoppedAt p (runState p n)) : stoppedAt p (runState p m) := by
  have : runAux p m = runAux p n := runAux_frozen p n h m hnm
  show stoppedAt p (runAux p m).1
  rw [this]
  exact h

theorem lt_monthsExecuted_not_stopped (p : Params) {k : ℕ}
    (hk : k < monthsExecuted p) : ¬ stoppedAt p (runState p k) := by
  intro hstop
  have hk360 : k ≤ MAX_MONTHS := le_trans (le_of_lt hk) (monthsExecuted_le p)
  have : runAux p MAX_MONTHS = runAux p k := runAux_frozen p k hstop _ hk360
  have hle : monthsExecuted p ≤ k := by
    show (runAux p MAX_MONTHS).2 ≤ k
    rw [this]
    exact runAux_count_le p k
  exact absurd hk (not_lt.mpr hle)

theorem runState_succ_of_lt (p : Params) {k : ℕ} (hk : k < monthsExecuted p) :
    runState p (k + 1) = (stepState p (k + 1) (runState p k)).1 := by
  rw [runState_succ, if_neg (lt_monthsExecuted_not_stopped p hk)]

theorem timelineOf_length (p : Params) (now : NowClock) :
    (timelineOf p now).length = monthsExecuted p := by
  simp [timelineOf]

/-- The default entry used with `List.getD` in claim statements. -/
def dummyEntry : TimelineMonth := ⟨0, "", [], 0, 0, 0⟩

theorem timelineOf_getD (p : Params) (now : NowClock) {k : ℕ}
    (hk : k < monthsExecuted p) :
    (timelineOf p now).getD k dummyEntry =
      mkEntry p now (k + 1) (stepState p (k + 1) (runState p k)).1
        (stepState p (k + 1) (runState p k)).2 := by
  have hlen : k < (timelineOf p now).length := by
    rw [timelineOf_length]; exact hk
  rw [List.getD_eq_getElem _ _ hlen]
  simp [timelineOf]

theorem runState_cumInt_nonneg (p : Params) (hv : ValidParams p) :
    ∀ n, 0 ≤ (runState p n).cumInt := by
  intro n
  induction n with
  | zero => exact le_rfl
  | succ n ih =>
    rw [runState_succ]
    by_cases h : stoppedAt p (runState p n)
    · rwa [if_pos h]
    · rw [if_neg h, stepState_cumInt]
      have h2 : 0 ≤ (accrue p.active (runState p n).bal).2 :=
        accrue_snd_nonneg _ _ hv.aprNonneg
      have h3 : 0 ≤ roundCents (accrue p.active (runState p n).bal).2 :=
        roundCents_nonneg h2
      exact roundCents_nonneg (by linarith)

/-- Once every active card's balance is cents (true from the first
executed month on), it stays cents. -/
theorem runState_cents (p : Params) (hv : ValidParams p) :
    ∀ n, 1 ≤ n → p.active ≠ [] → ∀ x, Cents ((runState p n).bal x) := by
  intro n
  induction n with
  | zero => intro h; cases h
  | succ n ih =>
    intro _ hne x
    rw [runState_succ]
    by_cases h : stoppedAt p (runState p n)
    · rw [if_pos h]
      rcases Nat.eq_zero_or_pos n with rfl | hpos
      · exfalso
        have : ([] : List String).length = p.active.length := h
        simp only [List.length_nil] at this
        exact hne (List.length_eq_zero.mp this.symm)
      · exact ih hpos hne x
    · rw [if_neg h, stepState_bal_eq p (n + 1) (runState p n) hv
        (runState_inv p hv n)]
      exact (balPhase3_facts p (n + 1) (runState p n) hv
        (runState_inv p hv n) x).2.2

-- --- Per-card balance bounds over one month ---

theorem step_bal_le (p : Params) (m : ℕ) (s : SimState) (hv : ValidParams p)
    (hs : StInv p s) {c : CardInput} (hc : c ∈ p.active) :
    (stepState p m s).1.bal c.id ≤
      roundCents (s.bal c.id +
        calculateMonthlyInterest (s.bal c.id) c.apr) := by
  rw [stepState_bal_eq p m s hv hs]
  have h3 := (balPhase3_facts p m s hv hs c.id).2.1
  have h2 := (balPhase2_facts p s hv hs c.id).2.2
  have h1 : balPhase1 p s c.id = accrueFn c (s.bal c.id) :=
    balPhase1_mem p s hv hc
  unfold accrueFn at h1
  by_cases h : s.bal c.id ≤ 0
  · have hz : s.bal c.id = 0 := le_antisymm h (hs.balNonneg c.id)
    rw [if_pos h] at h1
    have : balPhase3 p m s c.id ≤ s.bal c.id := le_trans h3 (h1 ▸ h2)
    refine le_trans this ?_
    have hnn : 0 ≤ calculateMonthlyInterest (s.bal c.id) c.apr :=
      calculateMonthlyInterest_nonneg (hs.balNonneg c.id) (hv.aprNonneg c hc)
    have : roundCents (s.bal c.id) ≤
        roundCents (s.bal c.id + calculateMonthlyInterest (s.bal c.id) c.apr) :=
      roundCents_mono (by linarith)
    rw [hz] at this ⊢
    rwa [roundCents_eq_self Cents.zero] at this
  · rw [if_neg h] at h1
    exact le_trans h3 (h1 ▸ h2)

theorem step_bal_mono (p : Params) (m : ℕ) (s : SimState) (hv : ValidParams p)
    (hs : StInv p s) {c : CardInput} (hc : c ∈ p.active)
    (hcent : Cents (s.bal c.id))
    (hcov : calculateMonthlyInterest (s.bal c.id) c.apr ≤ c.minimumPayment) :
    (stepState p m s).1.bal c.id ≤ s.bal c.id := by
  rw [stepState_bal_eq p m s hv hs]
  have h3 := (balPhase3_facts p m s hv hs c.id).2.1
  have h1 : balPhase1 p s c.id = accrueFn c (s.bal c.id) :=
    balPhase1_mem p s hv hc
  have h2 : balPhase2 p s c.id = minFn c (balPhase1 p s c.id) :=
    balPhase2_mem p s hv hc
  unfold accrueFn at h1
  by_cases h : s.bal c.id ≤ 0
  · rw [if_pos h] at h1
    exact le_trans h3 (le_of_le_of_eq ((balPhase2_facts p s hv hs c.id).2.2) h1)
  · rw [if_neg h] at h1
    set v := s.bal c.id with hvdef
    have hvpos : 0 < v := lt_of_not_le h
    set i := calculateMonthlyInterest v c.apr with hidef
    have hinn : 0 ≤ i :=
      calculateMonthlyInterest_nonneg (le_of_lt hvpos) (hv.aprNonneg c hc)
    have hic : Cents i := roundCents_cents _
    have h1' : balPhase1 p s c.id = v + i := by
      rw [h1, roundCents_eq_self (hcent.add hic)]
    have hb1pos : ¬ balPhase1 p s c.id ≤ 0 := by
      rw [h1']
      push_neg
      linarith
    rw [h2] at h3
    unfold minFn at h3
    rw [if_neg hb1pos] at h3
    have hminge : i ≤ min c.minimumPayment (balPhase1 p s c.id) := by
      refine le_min hcov ?_
      rw [h1']
      linarith
    have hsub : balPhase1 p s c.id -
        min c.minimumPayment (balPhase1 p s c.id) ≤ v := by
      have hmg := hminge
      rw [h1'] at hmg ⊢
      linarith
    refine le_trans h3 ?_
    calc roundCents (balPhase1 p s c.id -
          min c.minimumPayment (balPhase1 p s c.id))
        ≤ roundCents v := roundCents_mono hsub
      _ = v := roundCents_eq_self hcent

-- --- Paid set vs capped ---

theorem paid_length_le (p : Params) (hv : ValidParams p) (s : SimState)
    (hs : StInv p s) : s.paid.length ≤ p.active.length := by
  have hsub : s.paid.toFinset ⊆ (activeIds p).toFinset := by
    intro i hi
    rw [List.mem_toFinset] at hi ⊢
    exact hs.paidSub i hi
  have h1 : s.paid.toFinset.card = s.paid.length :=
    List.toFinset_card_of_nodup hs.paidNodup
  have h2 : (activeIds p).toFinset.card = (activeIds p).length :=
    List.toFinset_card_of_nodup hv.idsNodup
  have h3 : (activeIds p).length = p.active.length := List.length_map _ _
  have := Finset.card_le_card hsub
  omega

theorem paid_length_lt_iff (p : Params) (hv : ValidParams p) (s : SimState)
    (hs : StInv p s) :
    s.paid.length < p.active.length ↔ ∃ c ∈ p.active, c.id ∉ s.paid := by
  constructor
  · intro hlt
    by_contra hno
    push_neg at hno
    have hsub : (activeIds p).toFinset ⊆ s.paid.toFinset := by
      intro i hi
      rw [List.mem_toFinset] at hi ⊢
      obtain ⟨c, hc, rfl⟩ := List.mem_map.mp hi
      exact hno c hc
    have h1 : s.paid.toFinset.card = s.paid.length :=
      List.toFinset_card_of_nodup hs.paidNodup
    have h2 : (activeIds p).toFinset.card = (activeIds p).length :=
      List.toFinset_card_of_nodup hv.idsNodup
    have h3 : (activeIds p).length = p.active.length := List.length_map _ _
    have := Finset.card_le_card hsub
    omega
  · rintro ⟨c, hc, hnot⟩
    rcases lt_or_eq_of_le (paid_length_le p hv s hs) with h | h
    · exact h
    · exfalso
      have hsub : s.paid.toFinset ⊆ (activeIds p).toFinset := by
        intro i hi
        rw [List.mem_toFinset] at hi ⊢
        exact hs.paidSub i hi
      have h1 : s.paid.toFinset.card = s.paid.length :=
        List.toFinset_card_of_nodup hs.paidNodup
      have h2 : (activeIds p).toFinset.card = (activeIds p).length :=
        List.toFinset_card_of_nodup hv.idsNodup
      have h3 : (activeIds p).length = p.active.length := List.length_map _ _
      have heq : s.paid.toFinset = (activeIds p).toFinset :=
        Finset.eq_of_subset_of_card_le hsub (by omega)
      have : c.id ∈ s.paid.toFinset := by
        rw [heq, List.mem_toFinset]
        exact List.mem_map_of_mem _ hc
      exact hnot (List.mem_toFinset.mp this)

-- --- Reading a card's balance out of a timeline entry ---

/-- The recorded balance of the instrument with the given id in a
timeline entry (0 when the id does not occur). -/
def entryBalance (e : TimelineMonth) (i : String) : ℚ :=
  ((e.cardBalances.find? (fun b => b.cardId = i)).map
    (fun b => b.balance)).getD 0

theorem find?_self_of_nodup {α β : Type} [DecidableEq β] (f : α → β)
    {l : List α} (hnd : (l.map f).Nodup) {c : α} (hc : c ∈ l) :
    l.find? (fun d => f d = f c) = some c := by
  induction l with
  | nil => cases hc
  | cons d l ih =>
    simp only [List.map_cons, List.nodup_cons] at hnd
    rcases List.mem_cons.mp hc with rfl | hc2
    · rw [List.find?_cons_of_pos _ (by simp)]
    · have hne : f d ≠ f c := by
        intro h
        exact hnd.1 (h ▸ List.mem_map_of_mem f hc2)
      rw [List.find?_cons_of_neg _ (by simpa using hne)]
      exact ih hnd.2 hc2

theorem entryBalance_mkEntry (p : Params) (now : NowClock) (m : ℕ)
    (s' : SimState) (mi : ℚ)
    (hnd : ((p.active ++ p.zero).map (fun c => c.id)).Nodup)
    {c : CardInput} (hc : c ∈ p.active) :
    entryBalance (mkEntry p now m s' mi) c.id = s'.bal c.id := by
  unfold entryBalance mkEntry
  simp only [List.find?_map]
  have hfind : (p.active ++ p.zero).find?
      (fun d => decide (d.id = c.id)) = some c :=
    find?_self_of_nodup (fun c => c.id) hnd
      (List.mem_append.mpr (Or.inl hc))
  have hcomp : ((fun b : CardBalanceEntry => decide (b.cardId = c.id)) ∘
      (fun d : CardInput => (⟨d.id, d.cardName, s'.bal d.id⟩ :
        CardBalanceEntry))) = (fun d : CardInput => decide (d.id = c.id)) :=
    rfl
  rw [hcomp, hfind]
  rfl

-- --- Branch projections of calculatePayoffPlan ---

theorem plan_of_empty (now : NowClock) (input : EngineInput)
    (h : (paramsOf input).active = []) :
    calculatePayoffPlan now input =
      { paymentInstructions := (paramsOf input).zero.map
          (fun c => ⟨c.id, c.cardName, c.userName, c.minimumPayment,
                     0, 0, false, none⟩)
        timeline := []
        totalInterestCost := 0
        monthsToDebtFree := 0
        debtFreeDate := getMonthIso now 0
        capped := false
        totalCurrentDebt :=
          roundCents (input.cards.foldl (fun a c => a + c.currentBalance) 0)
        monthlyExtraBudget := input.monthlyExtraBudget
        strategy := input.strategy } := by
  rw [calculatePayoffPlan]
  simp only [h, List.isEmpty_nil, if_true]

theorem plan_of_nonempty (now : NowClock) (input : EngineInput)
    (h : (paramsOf input).active ≠ []) :
    calculatePayoffPlan now input =
      { paymentInstructions := input.cards.map
          (instrOf now (runState (paramsOf input) MAX_MONTHS))
        timeline := timelineOf (paramsOf input) now
        totalInterestCost := (runState (paramsOf input) MAX_MONTHS).cumInt
        monthsToDebtFree :=
          if (runState (paramsOf input) MAX_MONTHS).paid.length <
              (paramsOf input).active.length then MAX_MONTHS
          else (timelineOf (paramsOf input) now).length
        debtFreeDate := getMonthIso now
          (if (runState (paramsOf input) MAX_MONTHS).paid.length <
              (paramsOf input).active.length then MAX_MONTHS
           else (timelineOf (paramsOf input) now).length)
        capped := decide ((runState (paramsOf input) MAX_MONTHS).paid.length <
          (paramsOf input).active.length)
        totalCurrentDebt :=
          roundCents (input.cards.foldl (fun a c => a + c.currentBalance) 0)
        monthlyExtraBudget := input.monthlyExtraBudget
        strategy := input.strategy } := by
  rw [calculatePayoffPlan]
  have h2 : (paramsOf input).active.isEmpty = false := by
    rw [Bool.eq_false_iff]
    intro h3
    exact h (List.isEmpty_iff.mp h3)
  simp only [h2, Bool.false_eq_true, if_false]

theorem plan_timeline_of_nonempty (now : NowClock) (input : EngineInput)
    (h : (paramsOf input).active ≠ []) :
    (calculatePayoffPlan now input).timeline =
      timelineOf (paramsOf input) now := by
  rw [plan_of_nonempty now input h]

theorem plan_instructions_of_nonempty (now : NowClock) (input : EngineInput)
    (h : (paramsOf input).active ≠ []) :
    (calculatePayoffPlan now input).paymentInstructions =
      input.cards.map
        (instrOf now (runState (paramsOf input) MAX_MONTHS)) := by
  rw [plan_of_nonempty now input h]

theorem plan_totalInterest_of_nonempty (now : NowClock) (input : EngineInput)
    (h : (paramsOf input).active ≠ []) :
    (calculatePayoffPlan now input).totalInterestCost =
      (runState (paramsOf input) MAX_MONTHS).cumInt := by
  rw [plan_of_nonempty now input h]

theorem plan_months_of_nonempty (now : NowClock) (input : EngineInput)
    (h : (paramsOf input).active ≠ []) :
    (calculatePayoffPlan now input).monthsToDebtFree =
      if (runState (paramsOf input) MAX_MONTHS).paid.length <
          (paramsOf input).active.length then MAX_MONTHS
      else (timelineOf (paramsOf input) now).length := by
  rw [plan_of_nonempty now input h]

theorem plan_capped_of_nonempty (now : NowClock) (input : EngineInput)
    (h : (paramsOf input).active ≠ []) :
    (calculatePayoffPlan now input).capped =
      decide ((runState (paramsOf input) MAX_MONTHS).paid.length <
        (paramsOf input).active.length) := by
  rw [plan_of_nonempty now input h]

-- --- Concrete scenario A (spec §8, used by claim C3) ---

def scenarioA : EngineInput :=
  ⟨[⟨"card-1", "Card", 1000, 24, 25, "user"⟩], 200, .avalanche, none⟩

def nowA : NowClock := ⟨2026, 9⟩

set_option maxRecDepth 2500 in
theorem scenarioA_stopped :
    stoppedAt (paramsOf scenarioA) (runState (paramsOf scenarioA) 5) := by
  show _ = _
  with_unfolding_all rfl

theorem scenarioA_frozen :
    runAux (paramsOf scenarioA) MAX_MONTHS = runAux (paramsOf scenarioA) 5 :=
  runAux_frozen (paramsOf scenarioA) 5 scenarioA_stopped MAX_MONTHS
    (by norm_num [MAX_MONTHS])

set_option maxRecDepth 2500 in
theorem scenarioA_monthsExecuted : monthsExecuted (paramsOf scenarioA) = 5 := by
  show (runAux (paramsOf scenarioA) MAX_MONTHS).2 = 5
  rw [scenarioA_frozen]
  with_unfolding_all rfl

/-- C3: on the single-instrument scenario (balance 1000.00, APR 24.0,
minimum 25.00, budget 200.00, avalanche, no one-time extra), month 1
accrues 20.00 interest (1000 → 1020), subtracts the minimum (→ 995),
allocates the full 200.00 extra (→ 795); the month-1 timeline entry
records totalInterestThisMonth = 20.00 and totalDebt = 795.00, and the
payment instruction has extraPayment = 200.00,
newBalanceAfterPayment = 795.00 and paysOffThisMonth = false. -/
theorem claim3_scenarioA :
    calculateMonthlyInterest 1000 24 = 20 ∧
    balPhase1 (paramsOf scenarioA) (initState (paramsOf scenarioA))
      "card-1" = 1020 ∧
    balPhase2 (paramsOf scenarioA) (initState (paramsOf scenarioA))
      "card-1" = 995 ∧
    balPhase3 (paramsOf scenarioA) 1 (initState (paramsOf scenarioA))
      "card-1" = 795 ∧
    ((calculatePayoffPlan nowA scenarioA).timeline.getD 0
      dummyEntry).totalInterestThisMonth = 20 ∧
    ((calculatePayoffPlan nowA scenarioA).timeline.getD 0
      dummyEntry).totalDebt = 795 ∧
    (calculatePayoffPlan nowA scenarioA).paymentInstructions.map
      (fun i => (i.extraPayment, i.newBalanceAfterPayment,
        i.paysOffThisMonth)) = [(200, 795, false)] := by
  have hne : (paramsOf scenarioA).active ≠ [] := by
    with_unfolding_all decide
  have hk0 : 0 < monthsExecuted (paramsOf scenarioA) := by
    rw [scenarioA_monthsExecuted]
    norm_num
  have hs360 : runState (paramsOf scenarioA) MAX_MONTHS =
      runState (paramsOf scenarioA) 5 := by
    show (runAux (paramsOf scenarioA) MAX_MONTHS).1 = _
    rw [scenarioA_frozen]
    rfl
  have htl := plan_timeline_of_nonempty nowA scenarioA hne
  have hin := plan_instructions_of_nonempty nowA scenarioA hne
  rw [htl, hin, hs360, timelineOf_getD (paramsOf scenarioA) nowA hk0]
  refine ⟨?_, ?_, ?_, ?_, ?_, ?_, ?_⟩ <;>
    set_option maxRecDepth 2500 in with_unfolding_all rfl

-- --- Validity of paramsOf from card-level hypotheses ---

theorem paramsOf_valid (input : EngineInput)
    (hnd : (input.cards.map (fun c => c.id)).Nodup)
    (hval : ∀ c ∈ input.cards,
      0 ≤ c.currentBalance ∧ 0 ≤ c.apr ∧ 0 ≤ c.minimumPayment) :
    ValidParams (paramsOf input) := by
  refine ⟨?_, ?_, ?_, ?_⟩
  · have hsub : List.Sublist ((paramsOf input).active.map (fun c => c.id))
        (input.cards.map (fun c => c.id)) :=
      List.Sublist.map _ (List.filter_sublist _)
    exact List.Nodup.sublist hsub hnd
  · intro c hc
    have := List.of_mem_filter hc
    simpa using this
  · intro c hc
    exact (hval c (List.mem_of_mem_filter hc)).2.1
  · intro c hc
    exact (hval c (List.mem_of_mem_filter hc)).2.2

theorem paramsOf_append_ids_nodup (input : EngineInput)
    (hnd : (input.cards.map (fun c => c.id)).Nodup) :
    (((paramsOf input).active ++ (paramsOf input).zero).map
      (fun c => c.id)).Nodup := by
  have hfe : input.cards.filter (fun c => decide (c.currentBalance ≤ 0)) =
      input.cards.filter (fun c => !decide (0 < c.currentBalance)) := by
    refine List.filter_congr ?_
    intro c _
    by_cases h : 0 < c.currentBalance
    · simp [h, not_le.mpr h]
    · simp [h, not_lt.mp h]
  have hperm : List.Perm ((paramsOf input).active ++ (paramsOf input).zero)
      input.cards := by
    show List.Perm (input.cards.filter (fun c => decide (0 < c.currentBalance))
      ++ input.cards.filter (fun c => decide (c.currentBalance ≤ 0))) _
    rw [hfe]
    exact List.filter_append_perm _ _
  exact ((hperm.map (fun c => c.id)).nodup_iff).mpr hnd

theorem mem_active_of_pos {input : EngineInput} {c : CardInput}
    (hc : c ∈ input.cards) (hpos : 0 < c.currentBalance) :
    c ∈ (paramsOf input).active :=
  List.mem_filter.mpr ⟨hc, by simpa using hpos⟩

-- --- C1: timeline balances and the per-month interest bound ---

/-- The recorded balance of an active card in timeline entry `k` is the
card's simulated balance after month `k+1`. -/
theorem timeline_entry_balance (now : NowClock) (input : EngineInput)
    (hnd : (input.cards.map (fun c => c.id)).Nodup)
    {c : CardInput} (hc : c ∈ input.cards) (hcpos : 0 < c.currentBalance)
    {k : ℕ} (hk : k < monthsExecuted (paramsOf input)) :
    entryBalance ((timelineOf (paramsOf input) now).getD k dummyEntry) c.id =
      (runState (paramsOf input) (k + 1)).bal c.id := by
  rw [timelineOf_getD (paramsOf input) now hk,
    entryBalance_mkEntry _ now _ _ _ (paramsOf_append_ids_nodup input hnd)
      (mem_active_of_pos hc hcpos),
    ← runState_succ_of_lt (paramsOf input) hk]

/-- C1 (amended): the month-over-month change of a recorded balance is
bounded by that month's interest on the recorded balance; it is
non-increasing whenever the instrument's minimum payment covers that
month's interest.  (As originally stated — unconditionally
non-increasing — the claim fails; see the counterexample.) -/
theorem claim1_amended (now : NowClock) (input : EngineInput)
    (hnd : (input.cards.map (fun c => c.id)).Nodup)
    (hval : ∀ c ∈ input.cards,
      0 ≤ c.currentBalance ∧ 0 ≤ c.apr ∧ 0 ≤ c.minimumPayment)
    {c : CardInput} (hc : c ∈ input.cards) (hcpos : 0 < c.currentBalance)
    {k : ℕ}
    (hk : k + 1 < (calculatePayoffPlan now input).timeline.length) :
    entryBalance ((calculatePayoffPlan now input).timeline.getD (k + 1)
        dummyEntry) c.id ≤
      roundCents (entryBalance ((calculatePayoffPlan now input).timeline.getD
          k dummyEntry) c.id +
        calculateMonthlyInterest
          (entryBalance ((calculatePayoffPlan now input).timeline.getD k
            dummyEntry) c.id) c.apr) ∧
    (calculateMonthlyInterest
        (entryBalance ((calculatePayoffPlan now input).timeline.getD k
          dummyEntry) c.id) c.apr ≤ c.minimumPayment →
      entryBalance ((calculatePayoffPlan now input).timeline.getD (k + 1)
          dummyEntry) c.id ≤
        entryBalance ((calculatePayoffPlan now input).timeline.getD k
          dummyEntry) c.id) := by
  have hv := paramsOf_valid input hnd hval
  have hcact := mem_active_of_pos hc hcpos
  have hne : (paramsOf input).active ≠ [] := fun h => by
    rw [h] at hcact
    cases hcact
  rw [plan_timeline_of_nonempty now input hne] at hk ⊢
  rw [timelineOf_length] at hk
  have hk0 : k < monthsExecuted (paramsOf input) :=
    Nat.lt_of_succ_lt hk
  rw [timeline_entry_balance now input hnd hc hcpos hk0,
    timeline_entry_balance now input hnd hc hcpos hk]
  rw [runState_succ_of_lt (paramsOf input) hk]
  have hs := runState_inv (paramsOf input) hv (k + 1)
  have hcent : Cents ((runState (paramsOf input) (k + 1)).bal c.id) :=
    runState_cents (paramsOf input) hv (k + 1) (Nat.succ_le_succ (Nat.zero_le k))
      hne c.id
  exact ⟨step_bal_le (paramsOf input) (k + 2) _ hv hs hcact,
    fun hcov => step_bal_mono (paramsOf input) (k + 2) _ hv hs hcact hcent hcov⟩

-- --- The C1 counterexample run ---

def cexCardX : CardInput := ⟨"x", "X", 100, 24, 0, "u"⟩

def cexCardY : CardInput := ⟨"y", "Y", 1000, 30, 10, "u"⟩

def cexInput : EngineInput := ⟨[cexCardX, cexCardY], 300, .avalanche, none⟩

set_option maxRecDepth 2500 in
theorem cexInput_stopped :
    stoppedAt (paramsOf cexInput) (runState (paramsOf cexInput) 4) := by
  show _ = _
  with_unfolding_all rfl

theorem cexInput_frozen :
    runAux (paramsOf cexInput) MAX_MONTHS = runAux (paramsOf cexInput) 4 :=
  runAux_frozen (paramsOf cexInput) 4 cexInput_stopped MAX_MONTHS
    (by norm_num [MAX_MONTHS])

set_option maxRecDepth 2500 in
theorem cexInput_monthsExecuted : monthsExecuted (paramsOf cexInput) = 4 := by
  show (runAux (paramsOf cexInput) MAX_MONTHS).2 = 4
  rw [cexInput_frozen]
  with_unfolding_all rfl

/-- The balance and remaining-budget components of the allocation fold do
not depend on the captured month-1 extras. -/
theorem allocate_fst_m1e (sorted : List CardInput) (month : ℕ) :
    ∀ (b : String → ℚ) (avail : ℚ) (e e' : String → ℚ),
      (allocate sorted month b avail e).1 =
        (allocate sorted month b avail e').1 ∧
      (allocate sorted month b avail e).2.1 =
        (allocate sorted month b avail e').2.1 := by
  induction sorted with
  | nil => intro b avail e e'; exact ⟨rfl, rfl⟩
  | cons c cs ih =>
    intro b avail e e'
    simp only [allocate, List.foldl_cons]
    by_cases hav : avail ≤ 0
    · rw [if_pos hav, if_pos hav]
      exact ih b avail e e'
    · rw [if_neg hav, if_neg hav]
      by_cases hv : b c.id ≤ 0
      · rw [if_pos hv, if_pos hv]
        exact ih b avail e e'
      · rw [if_neg hv, if_neg hv]
        exact ih _ _ _ _

/-- `balPhase3` depends on the state only through its balances, paid-off
set and freed pool. -/
theorem balPhase3_congr (p : Params) (m : ℕ) (s s' : SimState)
    (hb : s.bal = s'.bal) (hp : s.paid = s'.paid) (hf : s.freed = s'.freed) :
    balPhase3 p m s = balPhase3 p m s' := by
  unfold balPhase3 sortedCards balPhase2 balPhase1 monthAvail
  rw [hb, hp, hf]
  exact (allocate_fst_m1e _ m _ _ s.m1Extra s'.m1Extra).1

/-- The balance and paid-list components of the cascade do not depend on
the freed pool or the payoff-date table. -/
theorem cascade_congr (cs : List CardInput) (m : ℕ) :
    ∀ (b : String → ℚ) (f f' : ℚ) (paid : List String)
      (pd pd' : String → Option ℕ),
      (cascade cs m b f paid pd).1 = (cascade cs m b f' paid pd').1 ∧
      (cascade cs m b f paid pd).2.2.1 =
        (cascade cs m b f' paid pd').2.2.1 := by
  induction cs with
  | nil => intros; exact ⟨rfl, rfl⟩
  | cons c cs ih =>
    intro b f f' paid pd pd'
    simp only [cascade, List.foldl_cons]
    by_cases hc : b c.id ≤ 0 ∧ c.id ∉ paid
    · rw [if_pos hc, if_pos hc]
      have := ih (Function.update b c.id 0) (roundCents (f + c.minimumPayment))
        (roundCents (f' + c.minimumPayment)) (paid ++ [c.id])
        (Function.update pd c.id (some m)) (Function.update pd' c.id (some m))
      simpa only [cascade] using this
    · rw [if_neg hc, if_neg hc]
      have := ih b f f' paid pd pd'
      simpa only [cascade] using this

/-- The post-month balances depend on the incoming state only through
its balances, paid-off set and freed pool. -/
theorem stepState_bal_congr (p : Params) (m : ℕ) (s s' : SimState)
    (hb : s.bal = s'.bal) (hp : s.paid = s'.paid) (hf : s.freed = s'.freed) :
    (stepState p m s).1.bal = (stepState p m s').1.bal := by
  rw [stepState_bal, stepState_bal,
    balPhase3_congr p m s s' hb hp hf, hp]
  exact (cascade_congr p.active m (balPhase3 p m s') s.freed s'.freed
    s'.paid s.payoffMonth s'.payoffMonth).1

theorem cexInput_nodup : (cexInput.cards.map (fun c => c.id)).Nodup := by
  with_unfolding_all decide

theorem cexInput_valid : ValidParams (paramsOf cexInput) :=
  paramsOf_valid cexInput cexInput_nodup (by with_unfolding_all decide)

theorem cexInput_activeIds : activeIds (paramsOf cexInput) = ["x", "y"] := by
  with_unfolding_all decide

set_option maxRecDepth 2500 in
set_option maxHeartbeats 1000000 in
theorem cexInput_balX1 : (runState (paramsOf cexInput) 1).bal "x" = 102 := by
  with_unfolding_all rfl

set_option maxRecDepth 2500 in
set_option maxHeartbeats 1000000 in
theorem cexInput_balY1 : (runState (paramsOf cexInput) 1).bal "y" = 715 := by
  with_unfolding_all rfl

/-- The fully evaluated end-of-month-1 state of the counterexample run
(`cumInt`, `payoffMonth`, `m1Extra` and `m1Bal` are irrelevant to the
subsequent balance computation and are given dummy values). -/
def cexS1 : SimState where
  bal := fun i => if i = "x" then 102 else if i = "y" then 715 else 0
  freed := 0
  cumInt := 0
  paid := []
  payoffMonth := fun _ => none
  m1Extra := fun _ => 0
  m1Bal := fun _ => 0

theorem cexInput_bal1 : (runState (paramsOf cexInput) 1).bal =
    (fun i => if i = "x" then 102 else if i = "y" then 715 else 0) := by
  funext i
  by_cases hx : i = "x"
  · subst hx
    simpa using cexInput_balX1
  · by_cases hy : i = "y"
    · subst hy
      simpa using cexInput_balY1
    · have hmem : i ∉ activeIds (paramsOf cexInput) := by
        rw [cexInput_activeIds]
        simp [hx, hy]
      rw [(runState_inv (paramsOf cexInput) cexInput_valid 1).balOff i hmem]
      simp [hx, hy]

set_option maxRecDepth 2500 in
set_option maxHeartbeats 1000000 in
theorem cexInput_paid1 : (runState (paramsOf cexInput) 1).paid = [] := by
  with_unfolding_all rfl

set_option maxRecDepth 2500 in
set_option maxHeartbeats 1000000 in
theorem cexInput_freed1 : (runState (paramsOf cexInput) 1).freed = 0 := by
  with_unfolding_all rfl

set_option maxRecDepth 2500 in
set_option maxHeartbeats 1000000 in
theorem cexInput_balX2 :
    (runState (paramsOf cexInput) 2).bal "x" = 10404 / 100 := by
  have hk1 : 1 < monthsExecuted (paramsOf cexInput) := by
    rw [cexInput_monthsExecuted]
    norm_num
  rw [runState_succ_of_lt (paramsOf cexInput) hk1,
    stepState_bal_congr (paramsOf cexInput) 2 (runState (paramsOf cexInput) 1)
      cexS1 cexInput_bal1 cexInput_paid1 cexInput_freed1]
  with_unfolding_all rfl

/-- C1 is false as stated: on a valid input (all balances, APRs, minimum
payments and budgets non-negative) the instrument "x" (balance 100, APR
24, minimum payment 0) has recorded balance 102.00 after month 1 and
104.04 after month 2 — the timeline balance increases because the
payments applied do not cover the interest capitalized. -/
theorem claim1_counterexample :
    (∀ c ∈ cexInput.cards,
      0 ≤ c.currentBalance ∧ 0 ≤ c.apr ∧ 0 ≤ c.minimumPayment) ∧
    0 ≤ cexInput.monthlyExtraBudget ∧
    entryBalance ((calculatePayoffPlan nowA cexInput).timeline.getD 0
      dummyEntry) "x" = 102 ∧
    entryBalance ((calculatePayoffPlan nowA cexInput).timeline.getD 1
      dummyEntry) "x" = 10404 / 100 ∧
    ¬ (entryBalance ((calculatePayoffPlan nowA cexInput).timeline.getD 1
        dummyEntry) "x" ≤
      entryBalance ((calculatePayoffPlan nowA cexInput).timeline.getD 0
        dummyEntry) "x") := by
  have hne : (paramsOf cexInput).active ≠ [] := by
    with_unfolding_all decide
  have hk0 : 0 < monthsExecuted (paramsOf cexInput) := by
    rw [cexInput_monthsExecuted]
    norm_num
  have hk1 : 1 < monthsExecuted (paramsOf cexInput) := by
    rw [cexInput_monthsExecuted]
    norm_num
  have hcx : cexCardX ∈ cexInput.cards := by with_unfolding_all decide
  have hcxpos : (0:ℚ) < cexCardX.currentBalance := by
    with_unfolding_all decide
  have he0 := timeline_entry_balance nowA cexInput cexInput_nodup hcx
    hcxpos hk0
  have he1 := timeline_entry_balance nowA cexInput cexInput_nodup hcx
    hcxpos hk1
  rw [show cexCardX.id = "x" from rfl] at he0 he1
  rw [plan_timeline_of_nonempty nowA cexInput hne, he0, he1,
    cexInput_balX1, cexInput_balX2]
  refine ⟨by with_unfolding_all decide, by with_unfolding_all decide,
    rfl, rfl, by norm_num⟩

set_option maxRecDepth 2500 in
theorem claim1_witness :
    ((cexInput.cards.map (fun c => c.id)).Nodup ∧
      (∀ c ∈ cexInput.cards,
        0 ≤ c.currentBalance ∧ 0 ≤ c.apr ∧ 0 ≤ c.minimumPayment) ∧
      cexCardY ∈ cexInput.cards ∧ 0 < cexCardY.currentBalance) ∧
    (entryBalance ((calculatePayoffPlan nowA cexInput).timeline.getD 1
        dummyEntry) cexCardY.id ≤
      roundCents (entryBalance ((calculatePayoffPlan nowA
          cexInput).timeline.getD 0 dummyEntry) cexCardY.id +
        calculateMonthlyInterest
          (entryBalance ((calculatePayoffPlan nowA cexInput).timeline.getD 0
            dummyEntry) cexCardY.id) cexCardY.apr) ∧
    (calculateMonthlyInterest
        (entryBalance ((calculatePayoffPlan nowA cexInput).timeline.getD 0
          dummyEntry) cexCardY.id) cexCardY.apr ≤ cexCardY.minimumPayment →
      entryBalance ((calculatePayoffPlan nowA cexInput).timeline.getD 1
          dummyEntry) cexCardY.id ≤
        entryBalance ((calculatePayoffPlan nowA cexInput).timeline.getD 0
          dummyEntry) cexCardY.id)) :=
  ⟨⟨by with_unfolding_all decide, by with_unfolding_all decide,
    by with_unfolding_all decide, by with_unfolding_all decide⟩,
    claim1_amended nowA cexInput (by with_unfolding_all decide)
      (by with_unfolding_all decide) (by with_unfolding_all decide)
      (by with_unfolding_all decide)
      (by rw [plan_timeline_of_nonempty nowA cexInput
            (by with_unfolding_all decide), timelineOf_length,
            cexInput_monthsExecuted]
          norm_num)⟩

-- --- C8: no positive-balance instrument ---

/-- C8: when no input instrument has a positive balance, the engine
returns immediately: empty timeline, zero interest, zero months, not
capped, and one instruction per input instrument with zero extra, no
payoff this month and no projected payoff date. -/
theorem claim8_no_active (now : NowClock) (input : EngineInput)
    (h : ∀ c ∈ input.cards, c.currentBalance ≤ 0) :
    (calculatePayoffPlan now input).timeline = [] ∧
    (calculatePayoffPlan now input).totalInterestCost = 0 ∧
    (calculatePayoffPlan now input).monthsToDebtFree = 0 ∧
    (calculatePayoffPlan now input).capped = false ∧
    (calculatePayoffPlan now input).paymentInstructions =
      input.cards.map (fun c =>
        ⟨c.id, c.cardName, c.userName, c.minimumPayment,
         0, 0, false, none⟩) := by
  have hactive : (paramsOf input).active = [] := by
    show input.cards.filter (fun c => decide (0 < c.currentBalance)) = []
    rw [List.filter_eq_nil_iff]
    intro c hc
    simpa using not_lt.mpr (h c hc)
  have hzero : (paramsOf input).zero = input.cards := by
    show input.cards.filter (fun c => decide (c.currentBalance ≤ 0)) = _
    rw [List.filter_eq_self]
    intro c hc
    simpa using h c hc
  rw [plan_of_empty now input hactive]
  refine ⟨rfl, rfl, rfl, rfl, ?_⟩
  rw [hzero]

def zeroCard : CardInput := ⟨"z", "Z", 0, 10, 5, "u"⟩

def zeroInput : EngineInput := ⟨[zeroCard], 50, .snowball, none⟩

theorem claim8_witness :
    (∀ c ∈ zeroInput.cards, c.currentBalance ≤ 0) ∧
    ((calculatePayoffPlan nowA zeroInput).timeline = [] ∧
     (calculatePayoffPlan nowA zeroInput).totalInterestCost = 0 ∧
     (calculatePayoffPlan nowA zeroInput).monthsToDebtFree = 0 ∧
     (calculatePayoffPlan nowA zeroInput).capped = false ∧
     (calculatePayoffPlan nowA zeroInput).paymentInstructions =
       zeroInput.cards.map (fun c =>
         ⟨c.id, c.cardName, c.userName, c.minimumPayment,
          0, 0, false, none⟩)) :=
  ⟨by with_unfolding_all decide,
   claim8_no_active nowA zeroInput (by with_unfolding_all decide)⟩

-- --- C10: clock dependence ---

def emptyInput : EngineInput := ⟨[], 0, .avalanche, none⟩

/-- C10 is false as stated: the month-label and date formatting reads the
ambient wall clock (`new Date()` in the source, the `NowClock` argument
in this embedding) rather than a caller-injected value, so two calls with
identical `EngineInput` but different ambient clocks return different
results (here the `debtFreeDate` differs). -/
theorem claim10_counterexample :
    calculatePayoffPlan ⟨2026, 0⟩ emptyInput ≠
      calculatePayoffPlan ⟨2027, 0⟩ emptyInput ∧
    (calculatePayoffPlan ⟨2026, 0⟩ emptyInput).debtFreeDate ≠
      (calculatePayoffPlan ⟨2027, 0⟩ emptyInput).debtFreeDate := by
  constructor
  · intro h
    have := congrArg PayoffPlanResult.debtFreeDate h
    revert this
    with_unfolding_all decide
  · with_unfolding_all decide

/-- The clock-independent projection of a timeline entry (everything but
the month label). -/
def stripEntry (e : TimelineMonth) :
    ℕ × List CardBalanceEntry × ℚ × ℚ × ℚ :=
  (e.month, e.cardBalances, e.totalDebt, e.totalInterestThisMonth,
   e.totalInterestCumulative)

/-- The clock-independent projection of a payment instruction (everything
but the projected payoff date). -/
def stripInstr (i : PaymentInstruction) :
    String × String × String × ℚ × ℚ × ℚ × Bool :=
  (i.cardId, i.cardName, i.userName, i.minimumPayment, i.extraPayment,
   i.newBalanceAfterPayment, i.paysOffThisMonth)

theorem stripInstr_instrOf (now now' : NowClock) (fin : SimState)
    (c : CardInput) :
    stripInstr (instrOf now fin c) = stripInstr (instrOf now' fin c) := rfl

set_option maxRecDepth 2500 in
/-- C10 (amended): for a fixed input the result depends on the ambient
clock only through the month labels and date strings: every other field
is identical across any two clock readings (and the computation is a
pure function of the input and the clock, so repeated calls under an
unchanged clock return identical results). -/
theorem claim10_amended (now now' : NowClock) (input : EngineInput) :
    (calculatePayoffPlan now input).totalInterestCost =
      (calculatePayoffPlan now' input).totalInterestCost ∧
    (calculatePayoffPlan now input).monthsToDebtFree =
      (calculatePayoffPlan now' input).monthsToDebtFree ∧
    (calculatePayoffPlan now input).capped =
      (calculatePayoffPlan now' input).capped ∧
    (calculatePayoffPlan now input).totalCurrentDebt =
      (calculatePayoffPlan now' input).totalCurrentDebt ∧
    (calculatePayoffPlan now input).monthlyExtraBudget =
      (calculatePayoffPlan now' input).monthlyExtraBudget ∧
    (calculatePayoffPlan now input).strategy =
      (calculatePayoffPlan now' input).strategy ∧
    (calculatePayoffPlan now input).timeline.map stripEntry =
      (calculatePayoffPlan now' input).timeline.map stripEntry ∧
    (calculatePayoffPlan now input).paymentInstructions.map stripInstr =
      (calculatePayoffPlan now' input).paymentInstructions.map stripInstr := by
  by_cases h : (paramsOf input).active = []
  · rw [plan_of_empty now input h, plan_of_empty now' input h]
    exact ⟨rfl, rfl, rfl, rfl, rfl, rfl, rfl, rfl⟩
  · rw [plan_of_nonempty now input h, plan_of_nonempty now' input h]
    refine ⟨rfl, ?_, rfl, rfl, rfl, rfl, ?_, ?_⟩
    · rw [timelineOf_length, timelineOf_length]
    · simp only [timelineOf, List.map_map]
      refine List.map_congr_left ?_
      intro k _
      rfl
    · simp only [List.map_map]
      refine List.map_congr_left ?_
      intro c _
      exact stripInstr_instrOf now now' _ c

-- --- C9: scenario comparison ---

theorem runState_cumInt_cents (p : Params) : ∀ n, Cents (runState p n).cumInt := by
  intro n
  induction n with
  | zero => exact Cents.zero
  | succ n ih =>
    rw [runState_succ]
    by_cases h : stoppedAt p (runState p n)
    · rwa [if_pos h]
    · rw [if_neg h, stepState_cumInt]
      exact roundCents_cents _

theorem plan_totalInterest_cents (now : NowClock) (input : EngineInput) :
    Cents (calculatePayoffPlan now input).totalInterestCost := by
  by_cases h : (paramsOf input).active = []
  · rw [plan_of_empty now input h]
    exact Cents.zero
  · rw [plan_totalInterest_of_nonempty now input h]
    exact runState_cumInt_cents (paramsOf input) MAX_MONTHS

/-- C9: `simulateScenario` runs the engine twice; its "current" summary
equals that of a direct `calculatePayoffPlan` call on the unmodified
inputs (baseline policy, no one-time extra); the "simulated" run
substitutes `budgetChange` for the monthly budget, `strategyOverride`
for the strategy and passes `oneTimePayment` as the month-1 one-time
extra, when each is supplied; and the result's savings are the
differences of the two summaries (interest totals are whole cents, so
the source's rounding of the difference is exact).  (Both runs consume
the same immutable input value; the embedding is a pure function, so
neither call can mutate the instruments.) -/
theorem claim9_scenario_comparator (now : NowClock)
    (si : SimulationInput) :
    (simulateScenario now si).current =
      ⟨(calculatePayoffPlan now
          ⟨si.cards, si.monthlyExtraBudget, si.strategy,
           none⟩).totalInterestCost,
       (calculatePayoffPlan now
          ⟨si.cards, si.monthlyExtraBudget, si.strategy,
           none⟩).monthsToDebtFree,
       (calculatePayoffPlan now
          ⟨si.cards, si.monthlyExtraBudget, si.strategy,
           none⟩).debtFreeDate⟩ ∧
    (simulateScenario now si).simulated =
      ⟨(calculatePayoffPlan now
          ⟨si.cards, si.budgetChange.getD si.monthlyExtraBudget,
           si.strategyOverride.getD si.strategy,
           si.oneTimePayment⟩).totalInterestCost,
       (calculatePayoffPlan now
          ⟨si.cards, si.budgetChange.getD si.monthlyExtraBudget,
           si.strategyOverride.getD si.strategy,
           si.oneTimePayment⟩).monthsToDebtFree,
       (calculatePayoffPlan now
          ⟨si.cards, si.budgetChange.getD si.monthlyExtraBudget,
           si.strategyOverride.getD si.strategy,
           si.oneTimePayment⟩).debtFreeDate⟩ ∧
    (simulateScenario now si).interestSaved =
      roundCents ((simulateScenario now si).current.totalInterestCost -
        (simulateScenario now si).simulated.totalInterestCost) ∧
    (simulateScenario now si).interestSaved =
      (simulateScenario now si).current.totalInterestCost -
        (simulateScenario now si).simulated.totalInterestCost ∧
    (simulateScenario now si).monthsSaved =
      ((simulateScenario now si).current.monthsToDebtFree : ℤ) -
        ((simulateScenario now si).simulated.monthsToDebtFree : ℤ) := by
  have hbudget : (match si.budgetChange with
      | some b => b
      | none => si.monthlyExtraBudget) =
      si.budgetChange.getD si.monthlyExtraBudget := by
    cases si.budgetChange <;> rfl
  refine ⟨?_, ?_, rfl, ?_, rfl⟩
  · simp only [simulateScenario, hbudget]
  · simp only [simulateScenario, hbudget]
  · exact roundCents_eq_self
      (Cents.sub (plan_totalInterest_cents now _)
        (plan_totalInterest_cents now _))

-- --- C2: the freed-minimum pool ---

theorem sum_map_add_split {α : Type} (f g : α → ℚ) (l : List α) :
    (l.map (fun c => f c + g c)).sum = (l.map f).sum + (l.map g).sum := by
  induction l with
  | nil => simp
  | cons c cs ih => simp [ih]; ring

theorem mem_map_id_filter {q : CardInput → Bool} {cs : List CardInput}
    (hnd : (cs.map (fun c => c.id)).Nodup) {c : CardInput} (hc : c ∈ cs) :
    c.id ∈ (cs.filter q).map (fun c => c.id) ↔ q c = true := by
  constructor
  · intro h
    simp only [List.mem_map, List.mem_filter] at h
    obtain ⟨d, ⟨hd, hq⟩, hid⟩ := h
    have : d = c := List.inj_on_of_nodup_map hnd hd hc hid
    rwa [this] at hq
  · intro hq
    exact List.mem_map.mpr ⟨c, List.mem_filter.mpr ⟨hc, hq⟩, rfl⟩

/-- Once the loop has stopped, every active card is in the paid-off set,
so no card is newly paid. -/
theorem newlyPaid_of_stopped (p : Params) (hv : ValidParams p)
    {s : SimState} (hs : StInv p s) (hstop : stoppedAt p s) (m : ℕ) :
    newlyPaid p m s = [] := by
  have hall : ∀ c ∈ p.active, c.id ∈ s.paid := by
    by_contra hex
    push_neg at hex
    obtain ⟨c, hc, hnp⟩ := hex
    have hlt := (paid_length_lt_iff p hv s hs).mpr ⟨c, hc, hnp⟩
    rw [stoppedAt] at hstop
    omega
  rw [newlyPaid, List.filter_eq_nil_iff]
  intro c hc
  simp only [Bool.and_eq_true, decide_eq_true_eq, not_and]
  intro _ hnp
  exact hnp (hall c hc)

/-- The paid-off set only grows, by exactly the ids of the cards whose
balance first reached zero in the executed month. -/
theorem runState_paid_succ (p : Params) (hv : ValidParams p) (n : ℕ) :
    (runState p (n + 1)).paid =
      (runState p n).paid ++
        (newlyPaid p (n + 1) (runState p n)).map (fun c => c.id) := by
  by_cases h : stoppedAt p (runState p n)
  · rw [runState_succ, if_pos h,
      newlyPaid_of_stopped p hv (runState_inv p hv n) h]
    simp
  · rw [runState_succ, if_neg h,
      stepState_paid_eq p (n + 1) (runState p n) hv (runState_inv p hv n)]

/-- The freed pool grows by exactly the sum of the newly paid cards'
minimum payments (minimum payments in whole cents make the incremental
rounding exact). -/
theorem runState_freed_succ (p : Params) (hv : ValidParams p)
    (hcents : ∀ c ∈ p.active, Cents c.minimumPayment) (n : ℕ) :
    (runState p (n + 1)).freed =
      (runState p n).freed +
        ((newlyPaid p (n + 1) (runState p n)).map
          (fun c => c.minimumPayment)).sum := by
  by_cases h : stoppedAt p (runState p n)
  · rw [runState_succ, if_pos h,
      newlyPaid_of_stopped p hv (runState_inv p hv n) h]
    simp
  · rw [runState_succ, if_neg h,
      stepState_freed_eq p (n + 1) (runState p n) hv (runState_inv p hv n)]
    refine foldl_roundAdd_eq_sum _ _ (runState_inv p hv n).freedCents ?_
    intro mp hmp
    obtain ⟨c, hc, rfl⟩ := List.mem_map.mp hmp
    exact hcents c (newlyPaid_subset p (n + 1) (runState p n) c hc)

theorem runState_freed_mono (p : Params) (hv : ValidParams p)
    (hcents : ∀ c ∈ p.active, Cents c.minimumPayment) :
    ∀ n m, n ≤ m → (runState p n).freed ≤ (runState p m).freed := by
  intro n m hnm
  induction m with
  | zero =>
    cases Nat.le_zero.mp hnm
    exact le_rfl
  | succ m ih =>
    rcases Nat.lt_or_ge n (m + 1) with h | h
    · refine le_trans (ih (Nat.lt_succ_iff.mp h)) ?_
      rw [runState_freed_succ p hv hcents m]
      have hnn : 0 ≤ ((newlyPaid p (m + 1) (runState p m)).map
          (fun c => c.minimumPayment)).sum := by
        refine sum_map_nonneg ?_
        intro c hc
        exact hv.mpNonneg c (newlyPaid_subset p (m + 1) (runState p m) c hc)
      linarith
    · have : n = m + 1 := le_antisymm hnm h
      rw [this]

/-- Master identity: at every month boundary the freed pool equals the
sum of the minimum payments of exactly the instruments currently in the
paid-off set. -/
theorem runState_freed_eq_paid_sum (p : Params) (hv : ValidParams p)
    (hcents : ∀ c ∈ p.active, Cents c.minimumPayment) :
    ∀ n, (runState p n).freed =
      ((p.active.filter
          (fun c => decide (c.id ∈ (runState p n).paid))).map
        (fun c => c.minimumPayment)).sum := by
  intro n
  induction n with
  | zero =>
    have hnil : p.active.filter
        (fun c => decide (c.id ∈ (runState p 0).paid)) = [] := by
      apply List.filter_eq_nil_iff.mpr
      intro c hc
      simp only [decide_eq_true_eq]
      intro hmem
      exact absurd hmem (List.not_mem_nil c.id)
    rw [hnil]
    rfl
  | succ n ih =>
    rw [runState_freed_succ p hv hcents n, ih, runState_paid_succ p hv n,
      newlyPaid, sum_filter_eq_sum_ite, sum_filter_eq_sum_ite,
      sum_filter_eq_sum_ite, ← sum_map_add_split]
    refine congrArg List.sum (List.map_congr_left ?_)
    intro c hc
    have hiff := mem_map_id_filter (q := fun d =>
        decide (balPhase3 p (n + 1) (runState p n) d.id ≤ 0) &&
          decide (d.id ∉ (runState p n).paid)) hv.idsNodup hc
    simp only [Bool.and_eq_true, decide_eq_true_eq] at hiff
    simp only [List.mem_append, Bool.and_eq_true, decide_eq_true_eq, hiff]
    by_cases hmem : c.id ∈ (runState p n).paid
    · simp [hmem]
    · simp [hmem]

/-- Step 3 of the source loop at month `m` draws on the freed pool as it
stood at the end of month `m − 1`. -/
def availInMonth (p : Params) (m : ℕ) : ℚ :=
  monthAvail p m ((runState p (m - 1)).freed)

/-- C2: over any run with valid input (distinct ids, non-negative data,
minimum payments in whole cents), the freed-minimum pool never
decreases; the paid-off set is write-once (each month appends exactly
the ids newly at zero balance, and the set stays duplicate-free); each
month the pool grows by exactly the sum of the newly paid instruments'
minimum payments; at every month boundary the pool equals the sum of
the minimum payments of the instruments paid off so far, so the extra
allocatable in month n+1 is the budget plus the minimums of instruments
paid off in months 1..n (plus the month-1 one-time extra) — a minimum
freed in month m is first allocatable in month m+1, never in month m. -/
theorem claim2_freed_pool (input : EngineInput)
    (hnd : (input.cards.map (fun c => c.id)).Nodup)
    (hval : ∀ c ∈ input.cards,
      0 ≤ c.currentBalance ∧ 0 ≤ c.apr ∧ 0 ≤ c.minimumPayment)
    (hcents : ∀ c ∈ input.cards, Cents c.minimumPayment) :
    (∀ n m, n ≤ m → (runState (paramsOf input) n).freed ≤
      (runState (paramsOf input) m).freed) ∧
    (∀ n, (runState (paramsOf input) (n + 1)).paid =
      (runState (paramsOf input) n).paid ++
        (newlyPaid (paramsOf input) (n + 1)
          (runState (paramsOf input) n)).map (fun c => c.id)) ∧
    (∀ n, (runState (paramsOf input) n).paid.Nodup) ∧
    (∀ n, (runState (paramsOf input) (n + 1)).freed =
      (runState (paramsOf input) n).freed +
        ((newlyPaid (paramsOf input) (n + 1)
          (runState (paramsOf input) n)).map
            (fun c => c.minimumPayment)).sum) ∧
    (∀ n, (runState (paramsOf input) n).freed =
      (((paramsOf input).active.filter
          (fun c => decide (c.id ∈ (runState (paramsOf input) n).paid))).map
        (fun c => c.minimumPayment)).sum) ∧
    (∀ n, availInMonth (paramsOf input) (n + 1) =
      roundCents ((paramsOf input).budget +
        (((paramsOf input).active.filter
            (fun c => decide (c.id ∈ (runState (paramsOf input) n).paid))).map
          (fun c => c.minimumPayment)).sum +
        (if n + 1 = 1 then oneTimeVal (paramsOf input).oneTime else 0))) := by
  have hv := paramsOf_valid input hnd hval
  have hc : ∀ c ∈ (paramsOf input).active, Cents c.minimumPayment :=
    fun c hc => hcents c (List.mem_of_mem_filter hc)
  refine ⟨runState_freed_mono (paramsOf input) hv hc,
    runState_paid_succ (paramsOf input) hv,
    fun n => (runState_inv (paramsOf input) hv n).paidNodup,
    runState_freed_succ (paramsOf input) hv hc,
    runState_freed_eq_paid_sum (paramsOf input) hv hc, ?_⟩
  intro n
  rw [availInMonth, Nat.add_sub_cancel, monthAvail,
    runState_freed_eq_paid_sum (paramsOf input) hv hc n]

/-- Witness for C2 at the single-instrument scenario. -/
theorem claim2_witness :
    (runState (paramsOf scenarioA) 0).freed ≤
      (runState (paramsOf scenarioA) 1).freed ∧
    (runState (paramsOf scenarioA) 1).paid.Nodup := by
  have h := claim2_freed_pool scenarioA (by simp [scenarioA])
    (by
      intro c hc
      simp only [scenarioA, List.mem_singleton] at hc
      subst hc
      refine ⟨by norm_num, by norm_num, by norm_num⟩)
    (by
      intro c hc
      simp only [scenarioA, List.mem_singleton] at hc
      subst hc
      exact ⟨2500, by norm_num⟩)
  exact ⟨h.1 0 1 (by norm_num), h.2.2.1 1⟩

-- --- C4: result bounds and the capped flag ---

/-- C4: for every valid input (distinct ids; non-negative balances, APRs
and minimum payments), `calculatePayoffPlan` returns a non-negative
`totalInterestCost`; every timeline entry has non-negative `totalDebt`;
`monthsToDebtFree` and the number of timeline entries are at most 360;
`capped = true` exactly when some instrument with positive initial
balance is still outside the paid-off set when the 360-month cap is
reached; and a capped plan reports `monthsToDebtFree = 360`. -/
theorem claim4_result_bounds (now : NowClock) (input : EngineInput)
    (hnd : (input.cards.map (fun c => c.id)).Nodup)
    (hval : ∀ c ∈ input.cards,
      0 ≤ c.currentBalance ∧ 0 ≤ c.apr ∧ 0 ≤ c.minimumPayment) :
    0 ≤ (calculatePayoffPlan now input).totalInterestCost ∧
    (∀ e ∈ (calculatePayoffPlan now input).timeline, 0 ≤ e.totalDebt) ∧
    (calculatePayoffPlan now input).monthsToDebtFree ≤ MAX_MONTHS ∧
    (calculatePayoffPlan now input).timeline.length ≤ MAX_MONTHS ∧
    ((calculatePayoffPlan now input).capped = true ↔
      ∃ c ∈ input.cards, 0 < c.currentBalance ∧
        c.id ∉ (runState (paramsOf input) MAX_MONTHS).paid) ∧
    ((calculatePayoffPlan now input).capped = true →
      (calculatePayoffPlan now input).monthsToDebtFree = MAX_MONTHS) := by
  have hv := paramsOf_valid input hnd hval
  by_cases hne : (paramsOf input).active = []
  · rw [plan_of_empty now input hne]
    refine ⟨le_rfl, ?_, Nat.zero_le _, Nat.zero_le _, ?_, ?_⟩
    · intro e he
      cases he
    · constructor
      · intro h
        cases h
      · rintro ⟨c, hc, hpos, -⟩
        have : c ∈ (paramsOf input).active :=
          List.mem_filter.mpr ⟨hc, by simpa using hpos⟩
        rw [hne] at this
        cases this
    · intro h
      cases h
  · have hinv := runState_inv (paramsOf input) hv MAX_MONTHS
    refine ⟨?_, ?_, ?_, ?_, ?_, ?_⟩
    · rw [plan_totalInterest_of_nonempty now input hne]
      exact runState_cumInt_nonneg (paramsOf input) hv MAX_MONTHS
    · rw [plan_timeline_of_nonempty now input hne]
      intro e he
      simp only [timelineOf, List.mem_map, List.mem_range] at he
      obtain ⟨k, hk, rfl⟩ := he
      show 0 ≤ roundCents ((paramsOf input).active.foldl
        (fun a c => a + (stepState (paramsOf input) (k + 1)
          (runState (paramsOf input) k)).1.bal c.id) 0)
      rw [← runState_succ_of_lt (paramsOf input) hk]
      simp only [foldl_add_eq_sum, zero_add]
      exact roundCents_nonneg (sum_map_nonneg
        (fun c _ => (runState_inv (paramsOf input) hv (k + 1)).balNonneg c.id))
    · rw [plan_months_of_nonempty now input hne]
      split_ifs with h
      · exact le_rfl
      · rw [timelineOf_length]
        exact monthsExecuted_le (paramsOf input)
    · rw [plan_timeline_of_nonempty now input hne, timelineOf_length]
      exact monthsExecuted_le (paramsOf input)
    · rw [plan_capped_of_nonempty now input hne, decide_eq_true_eq,
        paid_length_lt_iff (paramsOf input) hv _ hinv]
      constructor
      · rintro ⟨c, hc, hnp⟩
        refine ⟨c, List.mem_of_mem_filter hc, ?_, hnp⟩
        have := List.of_mem_filter hc
        simpa using this
      · rintro ⟨c, hc, hpos, hnp⟩
        exact ⟨c, List.mem_filter.mpr ⟨hc, by simpa using hpos⟩, hnp⟩
    · rw [plan_capped_of_nonempty now input hne,
        plan_months_of_nonempty now input hne, decide_eq_true_eq]
      intro h
      rw [if_pos h]

/-- Witness for C4 at the single-instrument scenario. -/
theorem claim4_witness :
    0 ≤ (calculatePayoffPlan nowA scenarioA).totalInterestCost ∧
    (calculatePayoffPlan nowA scenarioA).monthsToDebtFree ≤ MAX_MONTHS := by
  have h := claim4_result_bounds nowA scenarioA (by simp [scenarioA])
    (by
      intro c hc
      simp only [scenarioA, List.mem_singleton] at hc
      subst hc
      refine ⟨by norm_num, by norm_num, by norm_num⟩)
  exact ⟨h.1, h.2.2.1⟩

-- --- C5: strategy ordering ---

/-- A stable sort leaves the relative order of mutually related elements
unchanged: filtering by a class of elements that are pairwise related in
both directions returns them in input order. -/
theorem filter_insertionSort {α : Type} (r : α → α → Prop) [DecidableRel r]
    (p : α → Bool) (hp : ∀ a b, p a = true → p b = true → r a b) :
    ∀ l : List α, (l.insertionSort r).filter p = l.filter p := by
  intro l
  induction l with
  | nil => rfl
  | cons a l ih =>
    show (List.orderedInsert r a (l.insertionSort r)).filter p = _
    rw [List.orderedInsert_eq_take_drop, List.filter_append,
      List.filter_cons]
    by_cases hpa : p a = true
    · have htake : ((l.insertionSort r).takeWhile
          (fun b => decide ¬ r a b)).filter p = [] := by
        rw [List.filter_eq_nil_iff]
        intro b hb hpb
        have := List.mem_takeWhile_imp hb
        simp only [decide_eq_true_eq] at this
        exact this (hp a b hpa hpb)
      have hdrop : ((l.insertionSort r).dropWhile
            (fun b => decide ¬ r a b)).filter p =
          (l.insertionSort r).filter p := by
        conv_rhs =>
          rw [← List.takeWhile_append_dropWhile
            (p := fun b => decide ¬ r a b) (l := l.insertionSort r)]
        rw [List.filter_append, htake, List.nil_append]
      rw [htake, if_pos hpa, hdrop, ih, List.nil_append, List.filter_cons,
        if_pos hpa]
    · have hpa' : p a = false := Bool.eq_false_iff.mpr hpa
      have hsplit : ((l.insertionSort r).takeWhile
            (fun b => decide ¬ r a b)).filter p ++
          ((l.insertionSort r).dropWhile
            (fun b => decide ¬ r a b)).filter p =
          (l.insertionSort r).filter p := by
        rw [← List.filter_append, List.takeWhile_append_dropWhile]
      rw [if_neg hpa, hsplit, ih, List.filter_cons, if_neg hpa]

/-- C5: avalanche orders by descending APR with ties broken by ascending
balance; snowball orders by ascending balance with ties broken by
descending APR; the output is a permutation of the input; and the sort
is stable — instruments that tie on both keys keep their input order
(the source relies on ECMAScript's stable `Array.prototype.sort`). -/
theorem claim5_sorting (cards : List CardInput) :
    (sortCardsByStrategy cards .avalanche).Pairwise (fun a b =>
      b.apr < a.apr ∨
        (a.apr = b.apr ∧ a.currentBalance ≤ b.currentBalance)) ∧
    (sortCardsByStrategy cards .snowball).Pairwise (fun a b =>
      a.currentBalance < b.currentBalance ∨
        (a.currentBalance = b.currentBalance ∧ b.apr ≤ a.apr)) ∧
    (∀ s, List.Perm (sortCardsByStrategy cards s) cards) ∧
    (∀ s, ∀ A B : ℚ,
      (sortCardsByStrategy cards s).filter
        (fun c => decide (c.apr = A) && decide (c.currentBalance = B)) =
      cards.filter
        (fun c => decide (c.apr = A) && decide (c.currentBalance = B))) := by
  refine ⟨?_, ?_, ?_, ?_⟩
  · exact List.sorted_insertionSort avalLE cards
  · exact List.sorted_insertionSort snowLE cards
  · intro s
    cases s
    · exact List.perm_insertionSort avalLE cards
    · exact List.perm_insertionSort snowLE cards
  · intro s A B
    cases s
    · refine filter_insertionSort avalLE _ ?_ cards
      intro a b ha hb
      simp only [Bool.and_eq_true, decide_eq_true_eq] at ha hb
      exact Or.inr ⟨ha.1.trans hb.1.symm, le_of_eq (ha.2.trans hb.2.symm)⟩
    · refine filter_insertionSort snowLE _ ?_ cards
      intro a b ha hb
      simp only [Bool.and_eq_true, decide_eq_true_eq] at ha hb
      exact Or.inr ⟨ha.2.trans hb.2.symm, le_of_eq (hb.1.trans ha.1.symm)⟩

-- --- C6: milestones ---

/-- With a positive credit limit, `calculateMilestones` evaluates to its
else-branch record. -/
theorem calculateMilestones_pos (b l : ℚ) (hl : 0 < l) :
    calculateMilestones b l =
      { currentUtilization := roundPercent (b / l * 100)
        currentBalance := roundCents b
        currentCreditLimit := roundCents l
        milestones := milestoneThresholds.map (fun m =>
          ⟨m.threshold, thresholdLabel m.threshold, m.impact, m.rating,
           m.color,
           if m.threshold / 100 * l < b then
             roundCents (b - m.threshold / 100 * l) else 0,
           decide (roundPercent (b / l * 100) ≤ m.threshold)⟩) } := by
  simp only [calculateMilestones, if_neg (not_le.mpr hl)]

/-- With a non-positive credit limit, `calculateMilestones` returns the
fixed all-achieved record. -/
theorem calculateMilestones_nonpos (b l : ℚ) (hl : l ≤ 0) :
    calculateMilestones b l =
      { currentUtilization := 0
        currentBalance := roundCents b
        currentCreditLimit := 0
        milestones :=
          [⟨75, "75%", "Very Poor", .very_poor, .red, 0, true⟩,
           ⟨50, "50%", "Poor", .poor, .orange, 0, true⟩,
           ⟨30, "30%", "Fair", .fair, .yellow, 0, true⟩,
           ⟨10, "10%", "Good", .good, .green, 0, true⟩] } := by
  simp only [calculateMilestones, if_pos hl]

/-- C6 counterexample: with balance 100 and credit limit 0 the source
returns `dollarsNeeded = 0` for the 30% milestone, not
`roundCents (max 0 (100 − 30/100 · 0)) = 100` as the claimed formula
would require for every credit limit. -/
theorem claim6_counterexample :
    ∃ m ∈ (calculateMilestones 100 0).milestones,
      m.threshold = 30 ∧ m.dollarsNeeded = 0 ∧
      m.dollarsNeeded ≠ roundCents (max 0 (100 - m.threshold / 100 * 0)) := by
  refine ⟨⟨30, "30%", "Fair", .fair, .yellow, 0, true⟩, ?_, rfl, rfl, ?_⟩
  · rw [calculateMilestones_nonpos 100 0 le_rfl]
    simp
  · intro h
    rw [show max 0 (100 - (30:ℚ) / 100 * 0) = 100 by norm_num,
      roundCents_eq_self ⟨10000, by norm_num⟩] at h
    exact absurd h (by norm_num)

/-- C6 (amended): when the credit limit is positive, each of the four
milestones 75/50/30/10 reports
`dollarsNeeded = roundCents (max 0 (balance − threshold/100 · limit))`
and `achieved = (currentUtilization ≤ threshold)` with
`currentUtilization = roundPercent (balance/limit · 100)`; when the limit
is non-positive the utilization is reported as 0 and every milestone has
`dollarsNeeded = 0` and `achieved = true` (not the claimed formula);
in particular balance 8800 with limit 10000 gives utilization 88.0 and
milestone rows (75, 1300, false), (50, 3800, false), (30, 5800, false),
(10, 7800, false). -/
theorem claim6_amended (b l : ℚ) :
    (0 < l →
      (calculateMilestones b l).currentUtilization =
        roundPercent (b / l * 100) ∧
      (calculateMilestones b l).milestones =
        milestoneThresholds.map (fun m =>
          ⟨m.threshold, thresholdLabel m.threshold, m.impact, m.rating,
           m.color, roundCents (max 0 (b - m.threshold / 100 * l)),
           decide (roundPercent (b / l * 100) ≤ m.threshold)⟩)) ∧
    (l ≤ 0 →
      (calculateMilestones b l).currentUtilization = 0 ∧
      ∀ m ∈ (calculateMilestones b l).milestones,
        m.dollarsNeeded = 0 ∧ m.achieved = true) ∧
    (calculateMilestones 8800 10000).currentUtilization = 88 ∧
    (calculateMilestones 8800 10000).milestones.map
        (fun m => (m.threshold, m.dollarsNeeded, m.achieved)) =
      [(75, 1300, false), (50, 3800, false), (30, 5800, false),
       (10, 7800, false)] := by
  refine ⟨?_, ?_, ?_, ?_⟩
  · intro hl
    rw [calculateMilestones_pos b l hl]
    refine ⟨rfl, List.map_congr_left ?_⟩
    intro m _
    have hd : (if m.threshold / 100 * l < b then
          roundCents (b - m.threshold / 100 * l) else 0) =
        roundCents (max 0 (b - m.threshold / 100 * l)) := by
      by_cases h : m.threshold / 100 * l < b
      · rw [if_pos h, max_eq_right (by linarith)]
      · rw [if_neg h, max_eq_left (by linarith),
          roundCents_eq_self Cents.zero]
    rw [hd]
  · intro hl
    rw [calculateMilestones_nonpos b l hl]
    refine ⟨rfl, ?_⟩
    intro m hm
    simp only [List.mem_cons, List.not_mem_nil, or_false] at hm
    rcases hm with h | h | h | h <;> subst h <;> exact ⟨rfl, rfl⟩
  · rw [calculateMilestones_pos 8800 10000 (by norm_num)]
    show roundPercent (8800 / 10000 * 100) = 88
    with_unfolding_all rfl
  · rw [calculateMilestones_pos 8800 10000 (by norm_num)]
    with_unfolding_all rfl

/-- Witness for C6: the positive-limit branch of the amended theorem at
its hypothesis discharged for balance 8800, limit 10000. -/
theorem claim6_witness :
    (0:ℚ) < 10000 ∧
    (calculateMilestones 8800 10000).currentUtilization =
      roundPercent (8800 / 10000 * 100) :=
  ⟨by norm_num, ((claim6_amended 8800 10000).1 (by norm_num)).1⟩

-- --- C7: utilization ---

/-- The spec's ratio formula: percentage rounded to one decimal, or 0
when the limit is non-positive. -/
def ratioSpec (b l : ℚ) : ℚ :=
  if 0 < l then roundPercent (b / l * 100) else 0

/-- The cards belonging to one user. -/
def cardsOfUser (cards : List CardUtilizationInput) (u : String) :
    List CardUtilizationInput :=
  cards.filter (fun c => decide (c.userId = u))

def userBal (cards : List CardUtilizationInput) (u : String) : ℚ :=
  ((cardsOfUser cards u).map (fun c => c.currentBalance)).sum

def userLim (cards : List CardUtilizationInput) (u : String) : ℚ :=
  ((cardsOfUser cards u).map (fun c => c.creditLimit)).sum

/-- Lookup in the user accumulator list (first match, like `Map.get`). -/
def findAcc (acc : List UserAcc) (u : String) : Option UserAcc :=
  acc.find? (fun a => decide (a.userId = u))

theorem cardsOfUser_cons (c : CardUtilizationInput)
    (cs : List CardUtilizationInput) (u : String) :
    cardsOfUser (c :: cs) u =
      if c.userId = u then c :: cardsOfUser cs u else cardsOfUser cs u := by
  simp [cardsOfUser, List.filter_cons]

theorem upsertUser_keys (acc : List UserAcc) (c : CardUtilizationInput) :
    (upsertUser acc c).map (fun a => a.userId) =
      if c.userId ∈ acc.map (fun a => a.userId) then
        acc.map (fun a => a.userId)
      else acc.map (fun a => a.userId) ++ [c.userId] := by
  induction acc with
  | nil => simp [upsertUser]
  | cons a rest ih =>
    simp only [upsertUser, List.map_cons, List.mem_cons]
    by_cases h : a.userId = c.userId
    · rw [if_pos h, if_pos (Or.inl h.symm)]
      simp
    · rw [if_neg h, List.map_cons, ih]
      by_cases h2 : c.userId ∈ rest.map (fun a => a.userId)
      · rw [if_pos h2, if_pos (Or.inr h2)]
      · rw [if_neg h2, if_neg ?_, List.cons_append]
        rintro (h3 | h3)
        · exact h h3.symm
        · exact h2 h3

theorem upsertUser_keys_nodup {acc : List UserAcc}
    (h : (acc.map (fun a => a.userId)).Nodup) (c : CardUtilizationInput) :
    ((upsertUser acc c).map (fun a => a.userId)).Nodup := by
  rw [upsertUser_keys]
  by_cases hm : c.userId ∈ acc.map (fun a => a.userId)
  · rwa [if_pos hm]
  · rw [if_neg hm]
    simp [List.nodup_append, h, hm]

theorem foldl_upsert_keys_nodup :
    ∀ (cards : List CardUtilizationInput) (acc : List UserAcc),
      (acc.map (fun a => a.userId)).Nodup →
      ((cards.foldl upsertUser acc).map (fun a => a.userId)).Nodup := by
  intro cards
  induction cards with
  | nil => exact fun acc h => h
  | cons c cs ih =>
    intro acc h
    exact ih _ (upsertUser_keys_nodup h c)

theorem foldl_upsert_keys_mem :
    ∀ (cards : List CardUtilizationInput) (acc : List UserAcc) (u : String),
      u ∈ (cards.foldl upsertUser acc).map (fun a => a.userId) ↔
        u ∈ acc.map (fun a => a.userId) ∨
          u ∈ cards.map (fun c => c.userId) := by
  intro cards
  induction cards with
  | nil => intro acc u; simp
  | cons c cs ih =>
    intro acc u
    rw [List.foldl_cons, ih, upsertUser_keys]
    by_cases hm : c.userId ∈ acc.map (fun a => a.userId)
    · rw [if_pos hm]
      simp only [List.map_cons, List.mem_cons]
      constructor
      · rintro (h | h)
        · exact Or.inl h
        · exact Or.inr (Or.inr h)
      · rintro (h | h | h)
        · exact Or.inl h
        · exact Or.inl (h ▸ hm)
        · exact Or.inr h
    · rw [if_neg hm]
      simp only [List.mem_append, List.mem_singleton, List.map_cons,
        List.mem_cons]
      tauto

theorem findAcc_upsertUser (acc : List UserAcc) (c : CardUtilizationInput)
    (u : String) :
    findAcc (upsertUser acc c) u =
      if u = c.userId then
        match findAcc acc u with
        | some a => some ⟨a.userId, a.userName,
            a.totalBalance + c.currentBalance,
            a.totalCreditLimit + c.creditLimit, a.cardCount + 1⟩
        | none => some ⟨c.userId, c.userName, c.currentBalance,
            c.creditLimit, 1⟩
      else findAcc acc u := by
  induction acc with
  | nil =>
    by_cases hu : u = c.userId
    · rw [if_pos hu]
      simp only [upsertUser, findAcc]
      rw [List.find?_cons_of_pos _ (by simp [hu])]
      rfl
    · rw [if_neg hu]
      simp only [upsertUser, findAcc]
      rw [List.find?_cons_of_neg _ (by simp; exact fun h => hu h.symm)]
  | cons a rest ih =>
    simp only [upsertUser]
    by_cases hac : a.userId = c.userId
    · rw [if_pos hac]
      by_cases hau : a.userId = u
      · have hu : u = c.userId := hau.symm.trans hac
        rw [if_pos hu]
        simp only [findAcc]
        rw [List.find?_cons_of_pos _ (by simp [hau]),
          List.find?_cons_of_pos _ (by simp [hau])]
      · have hu : ¬ u = c.userId := fun h => hau ((h.trans hac.symm).symm)
        rw [if_neg hu]
        simp only [findAcc]
        rw [List.find?_cons_of_neg _ (by simp; exact fun h => hau h),
          List.find?_cons_of_neg _ (by simp; exact fun h => hau h)]
    · rw [if_neg hac]
      by_cases hau : a.userId = u
      · have hu : ¬ u = c.userId := fun h => hac (hau.trans h)
        rw [if_neg hu]
        simp only [findAcc]
        rw [List.find?_cons_of_pos _ (by simp [hau]),
          List.find?_cons_of_pos _ (by simp [hau])]
      · simp only [findAcc] at ih ⊢
        rw [List.find?_cons_of_neg _ (by simp; exact fun h => hau h), ih]
        by_cases hu : u = c.userId
        · rw [if_pos hu, if_pos hu,
            List.find?_cons_of_neg _ (by simp; exact fun h => hau h)]
        · rw [if_neg hu, if_neg hu,
            List.find?_cons_of_neg _ (by simp; exact fun h => hau h)]

theorem findAcc_foldl :
    ∀ (cards : List CardUtilizationInput) (acc : List UserAcc) (u : String),
      findAcc (cards.foldl upsertUser acc) u =
        match findAcc acc u with
        | some a => some ⟨a.userId, a.userName,
            a.totalBalance + userBal cards u,
            a.totalCreditLimit + userLim cards u,
            a.cardCount + (cardsOfUser cards u).length⟩
        | none =>
          match (cardsOfUser cards u).head? with
          | some c0 => some ⟨u, c0.userName, userBal cards u,
              userLim cards u, (cardsOfUser cards u).length⟩
          | none => none := by
  intro cards
  induction cards with
  | nil =>
    intro acc u
    cases hfa : findAcc acc u with
    | none => simp [hfa, cardsOfUser]
    | some a =>
      simp only [List.foldl_nil, hfa]
      have hb : userBal [] u = 0 := rfl
      have hl : userLim [] u = 0 := rfl
      rw [hb, hl]
      show some a = some ⟨a.userId, a.userName, a.totalBalance + 0,
        a.totalCreditLimit + 0, a.cardCount + 0⟩
      simp
  | cons c cs ih =>
    intro acc u
    rw [List.foldl_cons, ih, findAcc_upsertUser]
    by_cases hu : u = c.userId
    · have hcu : c.userId = u := hu.symm
      have hcons : cardsOfUser (c :: cs) u = c :: cardsOfUser cs u := by
        rw [cardsOfUser_cons, if_pos hcu]
      have hbal : userBal (c :: cs) u = c.currentBalance + userBal cs u := by
        simp [userBal, hcons]
      have hlim : userLim (c :: cs) u = c.creditLimit + userLim cs u := by
        simp [userLim, hcons]
      rw [if_pos hu, hcons, hbal, hlim]
      cases hfa : findAcc acc u with
      | none =>
        rw [hu]
        simp only [hfa, List.head?_cons, List.length_cons]
        rw [Nat.add_comm 1 ((cardsOfUser cs c.userId).length)]
      | some a =>
        simp only [hfa]
        rw [add_assoc, add_assoc, add_assoc,
          Nat.add_comm 1 ((cardsOfUser cs u).length), List.length_cons]
    · have hcu : ¬ c.userId = u := fun h => hu h.symm
      have hcons : cardsOfUser (c :: cs) u = cardsOfUser cs u := by
        rw [cardsOfUser_cons, if_neg hcu]
      have hbal : userBal (c :: cs) u = userBal cs u := by
        simp [userBal, hcons]
      have hlim : userLim (c :: cs) u = userLim cs u := by
        simp [userLim, hcons]
      rw [if_neg hu, hcons, hbal, hlim]

theorem findAcc_userAccsOf (cards : List CardUtilizationInput) (u : String) :
    findAcc (userAccsOf cards) u =
      match (cardsOfUser cards u).head? with
      | some c0 => some ⟨u, c0.userName, userBal cards u, userLim cards u,
          (cardsOfUser cards u).length⟩
      | none => none := by
  have h := findAcc_foldl cards [] u
  have h0 : findAcc [] u = none := rfl
  rw [h0] at h
  exact h

theorem userAccsOf_keys_nodup (cards : List CardUtilizationInput) :
    ((userAccsOf cards).map (fun a => a.userId)).Nodup :=
  foldl_upsert_keys_nodup cards [] (by simp)

theorem userAccsOf_keys_mem (cards : List CardUtilizationInput) (u : String) :
    u ∈ (userAccsOf cards).map (fun a => a.userId) ↔
      u ∈ cards.map (fun c => c.userId) := by
  rw [userAccsOf, foldl_upsert_keys_mem]
  simp

theorem mem_userAccsOf {cards : List CardUtilizationInput} {a : UserAcc}
    (ha : a ∈ userAccsOf cards) :
    a.totalBalance = userBal cards a.userId ∧
    a.totalCreditLimit = userLim cards a.userId ∧
    a.cardCount = (cardsOfUser cards a.userId).length := by
  have hfind : findAcc (userAccsOf cards) a.userId = some a := by
    show (userAccsOf cards).find? (fun x => decide (x.userId = a.userId)) =
      some a
    exact find?_self_of_nodup (fun x => x.userId)
      (userAccsOf_keys_nodup cards) ha
  rw [findAcc_userAccsOf] at hfind
  cases hh : (cardsOfUser cards a.userId).head? with
  | none => rw [hh] at hfind; cases hfind
  | some c0 =>
    rw [hh] at hfind
    have := Option.some.inj hfind
    rw [← this]
    exact ⟨rfl, rfl, rfl⟩

/-- The non-empty branch of `calculateUtilization`, with the running
totals rewritten as list sums. -/
theorem calculateUtilization_ne (cards : List CardUtilizationInput)
    (h : cards ≠ []) :
    calculateUtilization cards =
      { household :=
          ⟨roundCents ((cards.map (fun c => c.currentBalance)).sum),
           roundCents ((cards.map (fun c => c.creditLimit)).sum),
           ratioSpec
             (roundCents ((cards.map (fun c => c.currentBalance)).sum))
             (roundCents ((cards.map (fun c => c.creditLimit)).sum)),
           getRatingFromUtilization (ratioSpec
             (roundCents ((cards.map (fun c => c.currentBalance)).sum))
             (roundCents ((cards.map (fun c => c.creditLimit)).sum))),
           cards.length⟩
        perUser := (userAccsOf cards).map (fun user =>
          ⟨user.userId, user.userName, roundCents user.totalBalance,
           roundCents user.totalCreditLimit,
           ratioSpec user.totalBalance user.totalCreditLimit,
           getRatingFromUtilization
             (ratioSpec user.totalBalance user.totalCreditLimit),
           user.cardCount⟩)
        perCard := cards.map (fun card =>
          ⟨card.id, card.cardName, card.userName, card.userId,
           roundCents card.currentBalance, roundCents card.creditLimit,
           ratioSpec card.currentBalance card.creditLimit,
           getRatingFromUtilization
             (ratioSpec card.currentBalance card.creditLimit)⟩) } := by
  have he : cards.isEmpty = false := by
    rw [Bool.eq_false_iff]
    intro hh
    exact h (List.isEmpty_iff.mp hh)
  simp only [calculateUtilization, he, Bool.false_eq_true, if_false,
    ratioSpec]
  simp only [foldl_add_eq_sum, zero_add]

/-- The five bands of the rating table as intervals. -/
theorem getRating_bands (u : ℚ) :
    ((getRatingFromUtilization u).rating = .excellent ↔ u < 10) ∧
    ((getRatingFromUtilization u).rating = .good ↔ 10 ≤ u ∧ u < 30) ∧
    ((getRatingFromUtilization u).rating = .fair ↔ 30 ≤ u ∧ u < 50) ∧
    ((getRatingFromUtilization u).rating = .poor ↔ 50 ≤ u ∧ u < 75) ∧
    ((getRatingFromUtilization u).rating = .very_poor ↔ 75 ≤ u) := by
  simp only [getRatingFromUtilization]
  split_ifs with h1 h2 h3 h4 <;> refine ⟨?_, ?_, ?_, ?_, ?_⟩
  · simp [h1]
  · simp [show ¬ (10:ℚ) ≤ u from by linarith]
  · simp [show ¬ (30:ℚ) ≤ u from by linarith]
  · simp [show ¬ (50:ℚ) ≤ u from by linarith]
  · simp [show ¬ (75:ℚ) ≤ u from by linarith]
  · simp [h1]
  · simp [le_of_not_lt h1, h2]
  · simp [show ¬ (30:ℚ) ≤ u from by linarith]
  · simp [show ¬ (50:ℚ) ≤ u from by linarith]
  · simp [show ¬ (75:ℚ) ≤ u from by linarith]
  · simp [h1]
  · simp [h2]
  · simp [le_of_not_lt h2, h3]
  · simp [show ¬ (50:ℚ) ≤ u from by linarith]
  · simp [show ¬ (75:ℚ) ≤ u from by linarith]
  · simp [h1]
  · simp [h2]
  · simp [h3]
  · simp [le_of_not_lt h3, h4]
  · simp [show ¬ (75:ℚ) ≤ u from by linarith]
  · simp [h1]
  · simp [h2]
  · simp [h3]
  · simp [h4]
  · simp [le_of_not_lt h4]

/-- The single-card example of the claim. -/
def exampleCard293 : CardUtilizationInput :=
  ⟨"c1", "Card", "User", "u1", 293, 1000⟩

/-- C7: `calculateUtilization` computes each ratio as the balance/limit
percentage rounded to one decimal (0 when the limit is non-positive) at
all three granularities — per card; per user with the user's balances and
limits summed independently before dividing (one output row per distinct
userId); household over the rounded aggregate totals — and maps each
ratio through the fixed band table [0,10) excellent, [10,30) good,
[30,50) fair, [50,75) poor, [75,∞) very poor; balance 293 with limit
1000 yields 29.3, rated good. -/
theorem claim7_utilization (cards : List CardUtilizationInput) :
    ((calculateUtilization cards).perCard = cards.map (fun card =>
        ⟨card.id, card.cardName, card.userName, card.userId,
         roundCents card.currentBalance, roundCents card.creditLimit,
         ratioSpec card.currentBalance card.creditLimit,
         getRatingFromUtilization
           (ratioSpec card.currentBalance card.creditLimit)⟩)) ∧
    (∀ u : String,
      u ∈ (calculateUtilization cards).perUser.map (fun e => e.userId) ↔
        u ∈ cards.map (fun c => c.userId)) ∧
    ((calculateUtilization cards).perUser.map (fun e => e.userId)).Nodup ∧
    (∀ e ∈ (calculateUtilization cards).perUser,
      e.totalBalance = roundCents (userBal cards e.userId) ∧
      e.totalCreditLimit = roundCents (userLim cards e.userId) ∧
      e.cardCount = (cardsOfUser cards e.userId).length ∧
      e.utilization =
        ratioSpec (userBal cards e.userId) (userLim cards e.userId) ∧
      e.info = getRatingFromUtilization e.utilization) ∧
    (cards ≠ [] →
      (calculateUtilization cards).household =
        ⟨roundCents ((cards.map (fun c => c.currentBalance)).sum),
         roundCents ((cards.map (fun c => c.creditLimit)).sum),
         ratioSpec
           (roundCents ((cards.map (fun c => c.currentBalance)).sum))
           (roundCents ((cards.map (fun c => c.creditLimit)).sum)),
         getRatingFromUtilization (ratioSpec
           (roundCents ((cards.map (fun c => c.currentBalance)).sum))
           (roundCents ((cards.map (fun c => c.creditLimit)).sum))),
         cards.length⟩) ∧
    (cards = [] →
      (calculateUtilization cards).household =
        ⟨0, 0, 0, ⟨.excellent, "Excellent", .green⟩, 0⟩) ∧
    (∀ q : ℚ,
      ((getRatingFromUtilization q).rating = .excellent ↔ q < 10) ∧
      ((getRatingFromUtilization q).rating = .good ↔ 10 ≤ q ∧ q < 30) ∧
      ((getRatingFromUtilization q).rating = .fair ↔ 30 ≤ q ∧ q < 50) ∧
      ((getRatingFromUtilization q).rating = .poor ↔ 50 ≤ q ∧ q < 75) ∧
      ((getRatingFromUtilization q).rating = .very_poor ↔ 75 ≤ q)) ∧
    ((calculateUtilization [exampleCard293]).perCard.map
        (fun e => (e.utilization, e.info.rating)) =
      [(293/10, .good)]) := by
  by_cases hc : cards = []
  · subst hc
    refine ⟨rfl, ?_, ?_, ?_, ?_, fun _ => rfl, getRating_bands, ?_⟩
    · intro u; simp [calculateUtilization]
    · simp [calculateUtilization]
    · intro e he; simp [calculateUtilization] at he
    · intro h; cases h rfl
    · rw [calculateUtilization_ne [exampleCard293] (by simp)]
      with_unfolding_all rfl
  · rw [calculateUtilization_ne cards hc]
    refine ⟨rfl, ?_, ?_, ?_, fun _ => rfl, fun h => absurd h hc,
      getRating_bands, ?_⟩
    · intro u
      rw [List.map_map]
      exact userAccsOf_keys_mem cards u
    · rw [List.map_map]
      exact userAccsOf_keys_nodup cards
    · intro e he
      simp only [List.mem_map] at he
      obtain ⟨a, ha, rfl⟩ := he
      obtain ⟨hb, hl, hn⟩ := mem_userAccsOf ha
      exact ⟨by rw [hb], by rw [hl], hn, by rw [hb, hl], rfl⟩
    · rw [calculateUtilization_ne [exampleCard293] (by simp)]
      with_unfolding_all rfl

end WhooPaid
